import Mathlib

/-!
# Verification of the negotiAItor turn-scheduling and negotiation state machine

Shallow embedding of the Negotiation Core (`src/server/negotiation-agent.ts`),
the Stall Scheduler (`StallManager` in `src/server/mcp-client.ts`, second unit)
and the debounce logic of `handleSnapshotChanged`, together with proofs about
the state-machine invariants, timer behaviour and message deduplication.

Conventions of the embedding:
* JS `setTimeout` handles become `Bool` flags (armed / not armed) or
  `Option Nat` deadlines where the deadline matters.
* The single-threaded event loop is modelled by a small-step relation
  `AgentStep`; every constructor corresponds to one synchronous segment of
  the TypeScript code between two `await` points, with the guards the code
  checks at the start of that segment.
* In-flight LLM invocations are tracked by explicit per-call-site counters
  (ghost instrumentation; the code has no such counters, but each counter is
  incremented exactly where the code dispatches the corresponding
  `llm.chat` / `llm.chatWithTools` call and decremented where that call
  returns).
-/

namespace NegotiAItor

/-- `ChatMessage.sender` from `types.ts`: `"rep" | "agent" | "system"`. -/
inductive Sender
  | rep
  | agent
  | system
deriving DecidableEq, Repr

/-- The string the code uses for each sender (template-literal interpolation). -/
def Sender.name : Sender → String
  | .rep => "rep"
  | .agent => "agent"
  | .system => "system"

/-- `ChatMessage` from `types.ts`. -/
structure ChatMessage where
  sender : Sender
  text : String
  timestamp : Nat
deriving DecidableEq, Repr

/-- `NegotiationState` from `types.ts`. -/
inductive NegotiationState
  | idle
  | connecting
  | reaching_human
  | negotiating
  | awaiting_approval
  | paused
  | done
deriving DecidableEq, Repr

/-- `ApprovalRequest` from `types.ts`.  `agentRecommendation` is one of
`"accept" | "reject" | "counter"`; the code casts an arbitrary string into the
union, so we keep it a `String`. -/
structure ApprovalRequest where
  id : String
  description : String
  repOffer : String
  agentRecommendation : String
  reasoning : String
  counterSuggestion : Option String
deriving DecidableEq, Repr

/-- An entry of the `newMessages` array of the turn tools
(sender restricted to `"rep" | "system"` by the JSON schema; we keep the full
`Sender` type, as `deduplicateMessages` is typed over plain strings anyway). -/
structure NewMessage where
  sender : Sender
  text : String
deriving DecidableEq, Repr

/-- The key `` `${sender}:${text}` `` used by `deduplicateMessages`. -/
def msgKey (sender : String) (text : String) : String :=
  sender ++ ":" ++ text

/-- `NegotiationAgent.deduplicateMessages`: filter out extracted messages whose
`` `${sender}:${text}` `` key already occurs in the conversation. -/
def deduplicateMessages (conversation : List ChatMessage)
    (newMessages : List NewMessage) : List NewMessage :=
  let known := conversation.map (fun m => msgKey m.sender.name m.text)
  newMessages.filter (fun m => !(known.contains (msgKey m.sender.name m.text)))

/-- The append loop every turn runs over a deduplicated batch:
`addMessage({sender, text, timestamp: baseTs + j})` for the `j`-th entry. -/
def stampBatch (baseTs : Nat) : List NewMessage → List ChatMessage
  | [] => []
  | m :: rest => ⟨m.sender, m.text, baseTs⟩ :: stampBatch (baseTs + 1) rest

end NegotiAItor

namespace NegotiAItor

theorem stampBatch_timestamp_ge (baseTs : Nat) (l : List NewMessage) :
    ∀ c ∈ stampBatch baseTs l, baseTs ≤ c.timestamp := by
  induction l generalizing baseTs with
  | nil => intro c hc; simp [stampBatch] at hc
  | cons m rest ih =>
    intro c hc
    simp only [stampBatch, List.mem_cons] at hc
    rcases hc with rfl | hc
    · exact Nat.le_refl _
    · exact Nat.le_of_succ_le (ih (baseTs + 1) c hc)

theorem stampBatch_sorted (baseTs : Nat) (l : List NewMessage) :
    (stampBatch baseTs l).Pairwise (fun a b => a.timestamp < b.timestamp) := by
  induction l generalizing baseTs with
  | nil => simp [stampBatch]
  | cons m rest ih =>
    refine List.Pairwise.cons ?_ (ih (baseTs + 1))
    intro c hc
    exact Nat.lt_of_lt_of_le (Nat.lt_succ_self baseTs)
      (stampBatch_timestamp_ge (baseTs + 1) rest c hc)

theorem mem_dedup_key_not_known {conv : List ChatMessage} {batch : List NewMessage}
    {m : NewMessage} (hmem : m ∈ deduplicateMessages conv batch) :
    msgKey m.sender.name m.text ∉ conv.map (fun c => msgKey c.sender.name c.text) := by
  have h := (List.mem_filter.mp hmem).2
  simp only [Bool.not_eq_true'] at h
  intro hk
  have : (conv.map (fun c => msgKey c.sender.name c.text)).contains
      (msgKey m.sender.name m.text) = true := by
    exact List.elem_eq_true_of_mem hk
  rw [this] at h
  cases h

/-- C8: a proposed message whose `(sender, text)` pair already occurs in the
conversation log is dropped by `deduplicateMessages`, and the surviving batch
entries are appended with strictly increasing synthetic timestamps
(`baseTs + j` for the `j`-th survivor). -/
theorem dedup_drops_known_and_stamps_increase
    (conv : List ChatMessage) (batch : List NewMessage) (baseTs : Nat) :
    (∀ m ∈ batch, (∃ c ∈ conv, c.sender = m.sender ∧ c.text = m.text) →
      m ∉ deduplicateMessages conv batch) ∧
    (stampBatch baseTs (deduplicateMessages conv batch)).Pairwise
      (fun a b => a.timestamp < b.timestamp) := by
  constructor
  · rintro m _hm ⟨c, hc, hs, ht⟩ hmem
    refine mem_dedup_key_not_known hmem ?_
    refine List.mem_map.mpr ⟨c, hc, ?_⟩
    rw [hs, ht]
  · exact stampBatch_sorted _ _

/-- Witness for `dedup_drops_known_and_stamps_increase`: a log already holding
`{rep, "Hello"}` absorbs a re-reported `{rep, "Hello"}`. -/
theorem dedup_drops_known_and_stamps_increase_witness :
    (⟨Sender.rep, "Hello"⟩ : NewMessage) ∉
      deduplicateMessages [⟨Sender.rep, "Hello", 5⟩]
        [⟨Sender.rep, "Hello"⟩, ⟨Sender.system, "connecting"⟩] ∧
    (stampBatch 100 (deduplicateMessages [⟨Sender.rep, "Hello", 5⟩]
        [⟨Sender.rep, "Hello"⟩, ⟨Sender.system, "connecting"⟩])).Pairwise
      (fun a b => a.timestamp < b.timestamp) := by
  have h := dedup_drops_known_and_stamps_increase
    [⟨Sender.rep, "Hello", 5⟩] [⟨Sender.rep, "Hello"⟩, ⟨Sender.system, "connecting"⟩] 100
  exact ⟨h.1 ⟨Sender.rep, "Hello"⟩ (by decide)
    ⟨⟨Sender.rep, "Hello", 5⟩, by decide, rfl, rfl⟩, h.2⟩

/-! ## Stall Scheduler (`StallManager`) -/

/-- `STALL_MESSAGES` from the StallManager unit. -/
def STALL_MESSAGES : List String :=
  [ "Let me review the details of that, one moment please"
  , "I want to make sure I understand the offer correctly, give me just a sec"
  , "Hmm let me think about that for a moment"
  , "I\x27m looking over the terms, bear with me"
  , "Just reviewing this with my partner, one moment"
  , "Hold on, I want to double check something before I decide"
  , "Give me a minute to consider this"
  , "Still reviewing, thanks for your patience"
  , "I want to make sure this works for me, almost done thinking it over"
  , "Appreciate your patience, still considering" ]

def FIRST_STALL_DELAY_MS : Nat := 20000
def MIN_STALL_INTERVAL_MS : Nat := 45000
def MAX_STALL_JITTER_MS : Nat := 30000

/-- Mutable state of `StallManager`.  `timer` is the pending `setTimeout`
deadline (`null` ↦ `none`); `sendInFlight` is ghost instrumentation marking
that a `fire()` is suspended on its `await this.onSend(msg)`. -/
structure StallState where
  timer : Option Nat
  count : Nat
  sendInFlight : Bool
deriving DecidableEq, Repr

/-- The delay computed by `schedule()`:
`count === 0 ? FIRST_STALL_DELAY_MS : MIN_STALL_INTERVAL_MS + Math.random() * MAX_STALL_JITTER_MS`.
The random draw is the `jitter` parameter, `0 ≤ jitter < MAX_STALL_JITTER_MS`. -/
def stallScheduleDelay (count : Nat) (jitter : Nat) : Nat :=
  if count = 0 then FIRST_STALL_DELAY_MS else MIN_STALL_INTERVAL_MS + jitter

/-- `StallManager.start()` at time `now`: reset the counter, then `schedule()`. -/
def stallStart (s : StallState) (now : Nat) (jitter : Nat) : StallState :=
  let s0 := { s with count := 0 }
  { s0 with timer := some (now + stallScheduleDelay s0.count jitter) }

/-- `StallManager.stop()`: clear any pending timer, reset the counter. -/
def stallStop (s : StallState) : StallState :=
  { s with timer := none, count := 0 }

/-- Synchronous prefix of `fire()`: pick `STALL_MESSAGES[count % length]`,
increment the counter, dispatch `onSend`.  The fired timer handle is left in
place (the code never nulls `this.timer` when the timeout fires). -/
def stallFireStart (s : StallState) : StallState × String :=
  ({ s with count := s.count + 1, sendInFlight := true },
   STALL_MESSAGES.getD (s.count % STALL_MESSAGES.length) "")

/-- Completion of `fire()` at time `now`: a failed send is swallowed (the
`fail` flag is ignored), and the next send is scheduled iff `this.timer` was
not nulled by `stop()` while the send was in flight. -/
def stallFireComplete (s : StallState) (now : Nat) (jitter : Nat)
    (_fail : Bool) : StallState :=
  let s0 := { s with sendInFlight := false }
  match s0.timer with
  | some _ => { s0 with timer := some (now + stallScheduleDelay s0.count jitter) }
  | none => s0

/-- Observable events of a `StallManager` run. -/
inductive StallLabel
  | fire (msg : String)
  | complete
  | stopCmd
deriving DecidableEq, Repr

/-- One scheduler event: a timer firing (only possible while a timeout is
pending and no send is in flight), a send completing, or a `stop()` command. -/
inductive StallStep : StallState → StallLabel → StallState → Prop
  | fire (s : StallState) (d : Nat) (ht : s.timer = some d)
      (hin : s.sendInFlight = false) :
      StallStep s (.fire (stallFireStart s).2) (stallFireStart s).1
  | complete (s : StallState) (now jitter : Nat) (fail : Bool)
      (hin : s.sendInFlight = true) :
      StallStep s .complete (stallFireComplete s now jitter fail)
  | stopCmd (s : StallState) : StallStep s .stopCmd (stallStop s)

/-- A finite run of the stall scheduler, recording its labels. -/
inductive StallTrace : StallState → List StallLabel → StallState → Prop
  | refl (s : StallState) : StallTrace s [] s
  | step {s : StallState} {l : StallLabel} {s' : StallState} {ls : List StallLabel}
      {s'' : StallState} :
      StallStep s l s' → StallTrace s' ls s'' → StallTrace s (l :: ls) s''

/-- The fire messages of a label sequence, in order. -/
def stallFires : List StallLabel → List String
  | [] => []
  | .fire m :: rest => m :: stallFires rest
  | .complete :: rest => stallFires rest
  | .stopCmd :: rest => stallFires rest

theorem stallFireComplete_count (s : StallState) (now jitter : Nat) (fail : Bool) :
    (stallFireComplete s now jitter fail).count = s.count := by
  cases h : s.timer <;> simp [stallFireComplete, h]

theorem stallFireComplete_timer_none {s : StallState} (now jitter : Nat)
    (fail : Bool) (h : s.timer = none) :
    (stallFireComplete s now jitter fail).timer = none := by
  simp [stallFireComplete, h]

theorem stall_no_fire_of_timer_none {s : StallState} {ls : List StallLabel}
    {s' : StallState} (htr : StallTrace s ls s') :
    s.timer = none → stallFires ls = [] ∧ s'.timer = none := by
  induction htr with
  | refl => intro h; exact ⟨rfl, h⟩
  | step hstep _htr ih =>
    intro h
    cases hstep with
    | fire d ht _hin => rw [h] at ht; cases ht
    | complete now jitter fail _hin =>
      exact ih (stallFireComplete_timer_none now jitter fail h)
    | stopCmd =>
      exact ih rfl

/-- The round-robin message sequence: `n` messages starting at pool index
`c % STALL_MESSAGES.length`. -/
def roundRobinFrom : Nat → Nat → List String
  | _, 0 => []
  | c, n + 1 =>
    STALL_MESSAGES.getD (c % STALL_MESSAGES.length) "" :: roundRobinFrom (c + 1) n

theorem stall_fires_round_robin {s : StallState} {ls : List StallLabel}
    {s' : StallState} (htr : StallTrace s ls s') :
    stallFires ls = roundRobinFrom s.count (stallFires ls).length := by
  induction htr with
  | refl => rfl
  | step hstep htr' ih =>
    cases hstep with
    | fire d ht hin =>
      simp only [stallFires, List.length_cons, roundRobinFrom]
      exact congrArg₂ List.cons rfl ih
    | complete now jitter fail hin =>
      simp only [stallFires]
      conv_lhs => rw [ih]
      rw [stallFireComplete_count]
    | stopCmd =>
      have h := (stall_no_fire_of_timer_none htr' rfl).1
      simp only [stallFires]
      rw [h]
      rfl

theorem not_mem_fire_of_stallFires_nil (ls : List StallLabel) :
    ∀ m, stallFires ls = [] → StallLabel.fire m ∉ ls := by
  induction ls with
  | nil => intro m _ hm; cases hm
  | cons l rest ih =>
    intro m h hm
    rcases List.mem_cons.mp hm with heq | hm'
    · rw [← heq] at h; simp [stallFires] at h
    · cases l with
      | fire m2 => simp [stallFires] at h
      | complete => exact ih m (by simpa [stallFires] using h) hm'
      | stopCmd => exact ih m (by simpa [stallFires] using h) hm'

/-- C9: Stall Scheduler contract.
1. `start()` at `t0` arms the first send exactly `FIRST_STALL_DELAY_MS` (20 s)
   after `t0`;
2. after the first send, a send completing at time `now` schedules the next
   fire at `now + MIN_STALL_INTERVAL_MS + jitter`, i.e. 45–75 s later;
3. the messages fired after a `start()` are drawn round-robin from
   `STALL_MESSAGES`;
4. a failed send is swallowed: completion behaves identically whether the send
   failed or succeeded;
5. `stop()` clears the pending timer and counter, and no fire event can occur
   on any run following a `stop()` (including a `stop()` issued mid-send). -/
theorem stallManager_spec (s : StallState) (t0 now jitter : Nat)
    (hj : jitter < MAX_STALL_JITTER_MS) :
    (stallStart s t0 jitter).timer = some (t0 + FIRST_STALL_DELAY_MS) ∧
    (∀ (s' : StallState) (d0 : Nat) (fail : Bool), s'.count ≠ 0 →
      s'.timer = some d0 →
      (stallFireComplete s' now jitter fail).timer
          = some (now + (MIN_STALL_INTERVAL_MS + jitter)) ∧
        MIN_STALL_INTERVAL_MS ≤ MIN_STALL_INTERVAL_MS + jitter ∧
        MIN_STALL_INTERVAL_MS + jitter
          < MIN_STALL_INTERVAL_MS + MAX_STALL_JITTER_MS) ∧
    (∀ (ls : List StallLabel) (s' : StallState),
      StallTrace (stallStart s t0 jitter) ls s' →
      stallFires ls = roundRobinFrom 0 (stallFires ls).length) ∧
    (∀ s' : StallState,
      stallFireComplete s' now jitter true = stallFireComplete s' now jitter false) ∧
    ((stallStop s).timer = none ∧
      ∀ (ls : List StallLabel) (s' : StallState),
        StallTrace (stallStop s) ls s' → ∀ m, StallLabel.fire m ∉ ls) := by
  refine ⟨rfl, ?_, ?_, ?_, rfl, ?_⟩
  · intro s' d0 fail hc ht
    refine ⟨?_, Nat.le_add_right _ _, by omega⟩
    simp [stallFireComplete, ht, stallScheduleDelay, hc]
  · intro ls s' htr
    have h := stall_fires_round_robin htr
    have hc : (stallStart s t0 jitter).count = 0 := rfl
    rw [hc] at h
    exact h
  · intro s'
    simp [stallFireComplete]
  · intro ls s' htr m
    exact not_mem_fire_of_stallFires_nil ls m (stall_no_fire_of_timer_none htr rfl).1

/-- Witness for `stallManager_spec` at concrete inputs. -/
theorem stallManager_spec_witness :
    (stallStart ⟨none, 0, false⟩ 0 7000).timer = some 20000 ∧
    (stallStop ⟨some 5, 3, false⟩).timer = none := by
  have h1 := stallManager_spec ⟨none, 0, false⟩ 0 100 7000 (by decide)
  have h2 := stallManager_spec ⟨some 5, 3, false⟩ 0 100 7000 (by decide)
  exact ⟨h1.1, h2.2.2.2.2.1⟩

/-! ## Change debounce (`handleSnapshotChanged`)

`handleSnapshotChanged` (for a non-paused/idle/done state with no user-typing
suppression) clears any pending debounce timeout and arms a new one for
`2000` ms later carrying the event's snapshot; when a debounce timeout fires
uninterrupted, `processTurn(snapshot)` is dispatched.  `debounceRun` replays a
time-ordered list of `changed` events against a pending `(deadline, snapshot)`
timer and returns the list of `processTurn` dispatches `(fireTime, snapshot)`:
a pending timer whose deadline precedes the next event has already fired;
otherwise the event's `clearTimeout` cancels it.  After the last event the
remaining pending timer fires. -/

def DEBOUNCE_MS : Nat := 2000

def debounceRun : List (Nat × String) → Option (Nat × String) → List (Nat × String)
  | [], pending =>
    match pending with
    | some p => [p]
    | none => []
  | (t, snap) :: rest, pending =>
    let fired :=
      match pending with
      | some (f, ps) => if f ≤ t then [(f, ps)] else []
      | none => []
    fired ++ debounceRun rest (some (t + DEBOUNCE_MS, snap))

theorem debounceRun_burst (l : List (Nat × String)) :
    ∀ t snap, (((t, snap) :: l).Chain' (fun a b => b.1 < a.1 + DEBOUNCE_MS)) →
      debounceRun l (some (t + DEBOUNCE_MS, snap))
        = [(
            (((t, snap) :: l).getLast (List.cons_ne_nil _ _)).1 + DEBOUNCE_MS,
            (((t, snap) :: l).getLast (List.cons_ne_nil _ _)).2)] := by
  induction l with
  | nil => intro t snap _; rfl
  | cons e rest ih =>
    intro t snap hchain
    obtain ⟨t', snap'⟩ := e
    have hlt : t' < t + DEBOUNCE_MS := (List.chain'_cons.mp hchain).1
    have hchain' : ((t', snap') :: rest).Chain' (fun a b => b.1 < a.1 + DEBOUNCE_MS) :=
      (List.chain'_cons.mp hchain).2
    have hnotfired : ¬ (t + DEBOUNCE_MS ≤ t') := Nat.not_le.mpr hlt
    simp only [debounceRun, hnotfired, if_false, List.nil_append]
    rw [ih t' snap' hchain']
    congr 1

/-- C6: for a burst of `changed` events each arriving strictly within
`DEBOUNCE_MS` of its predecessor (while in a dispatchable phase with no
suppression), exactly one turn is dispatched, `DEBOUNCE_MS` after the last
event of the burst, carrying the last event's snapshot. -/
theorem debounce_burst_single_dispatch (events : List (Nat × String))
    (hne : events ≠ [])
    (hburst : events.Chain' (fun a b => b.1 < a.1 + DEBOUNCE_MS)) :
    debounceRun events none
      = [((events.getLast hne).1 + DEBOUNCE_MS, (events.getLast hne).2)] := by
  match events, hne with
  | (t, snap) :: rest, _ =>
    simp only [debounceRun, List.nil_append]
    exact debounceRun_burst rest t snap hburst

/-- Witness for `debounce_burst_single_dispatch`: three events inside one
window produce a single dispatch with the third snapshot. -/
theorem debounce_burst_single_dispatch_witness :
    debounceRun [(0, "a"), (1000, "b"), (1500, "c")] none = [(3500, "c")] := by
  have h := debounce_burst_single_dispatch [(0, "a"), (1000, "b"), (1500, "c")]
    (by decide)
    (by
      refine List.chain'_cons.mpr ⟨?_, List.chain'_cons.mpr ⟨?_, List.chain'_singleton _⟩⟩ <;>
        decide)
  simpa using h

/-! ## Negotiation Core (`NegotiationAgent`)

The agent's mutable fields, plus ghost instrumentation for the event-loop
analysis.  JS timeout handles become `Bool` flags; the Stall Scheduler is
represented by its timer flag only (its counter and messages are analysed
separately above).  The Boolean timers do not track delays, so the
long-vs-short watchdog interval chosen by `detectTypingIndicator` is not
distinguished. -/

/-- Arguments of a `negotiation_turn` tool call, as cast in `negotiationTurn`
(`NEGOTIATION_TURN_TOOL` schema). -/
structure NegotiationTurnPayload where
  newMessages : List NewMessage
  isCommitment : Bool
  offerDescription : Option String
  recommendation : Option String
  reasoning : Option String
  counterSuggestion : Option String
  action : String
  response : Option String
  ref : Option String
  reason : Option String
deriving DecidableEq, Repr

/-- Arguments of a `reach_human_turn` tool call (`REACH_HUMAN_TURN_TOOL`). -/
structure ReachTurnPayload where
  newMessages : List NewMessage
  humanDetected : Bool
  humanEvidence : String
  action : String
  response : Option String
  ref : Option String
  reason : Option String
deriving DecidableEq, Repr

/-- `ServerMessage` variants the agent publishes to the UI sink.  The
`chat_update` republication accompanying every `addMessage` is omitted from
recorded event lists, since it merely duplicates the `conversation` field. -/
inductive UIEvent
  | status_update (state : NegotiationState)
  | approval_required (request : ApprovalRequest)
  | agent_thinking (thinking : String)
  | agent_unsure (question : String) (context : String)
  | research_result (query : String) (findings : String)
  | error_event (message : String)
deriving DecidableEq, Repr

/-- State of a `NegotiationAgent`.

Fields up to `observerListening` mirror the class fields of
`negotiation-agent.ts` (timeout handles as booleans).  The remaining fields
are ghost instrumentation of the single-threaded event loop:
* `dispatchPending` — `processTurn` invocations already scheduled (a fired
  debounce callback, the post-resume / post-typing / post-override
  continuations) that have not run yet;
* `inFlight…` — LLM invocations currently awaited at each call site;
* `approvalResolved` — value carried by a resolved (but not yet awoken)
  approval promise;
* `commitmentWaiting` — a `negotiationTurn` is suspended on the approval
  promise inside `handleCommitmentPoint`;
* `finishingApproved` — the post-resolution tail of `handleCommitmentPoint`
  (fresh snapshot, closing message) is still running, with the value the
  rendezvous resolved to. -/
structure AgentState where
  conversation : List ChatMessage
  state : NegotiationState
  debounceTimer : Bool
  inactivityTimer : Bool
  pendingApproval : Option ApprovalRequest
  approvalResolve : Bool
  approvalDirective : Option String
  waitingForLLM : Bool
  pausedFromState : Option NegotiationState
  stallTimer : Bool
  userTypingTimer : Bool
  userTyping : Bool
  observerListening : Bool
  dispatchPending : Nat
  inFlightKickoff : Nat
  inFlightReach : Nat
  inFlightNegotiation : Nat
  inFlightExtract : Nat
  inFlightInactivity : Nat
  approvalResolved : Option Bool
  commitmentWaiting : Bool
  finishingApproved : Option Bool
deriving DecidableEq, Repr

/-- `addMessage`: push onto the conversation log. -/
def addMessage (s : AgentState) (m : ChatMessage) : AgentState :=
  { s with conversation := s.conversation ++ [m] }

/-- JS truthiness of an optional string (`undefined` and `""` are falsy). -/
def truthy : Option String → Bool
  | some t => !(t == "")
  | none => false

/-- Action fields read by `executeAction` (shared by the tool payloads). -/
structure ActionPayload where
  action : String
  response : Option String
  ref : Option String
  text : Option String
  reason : Option String
deriving DecidableEq, Repr

/-- `executeAction`: effect on the conversation log and UI sink.  Browser
calls (`click` / `type` / `pressKey`) go to the action surface and leave the
agent state untouched. -/
def executeAction (s : AgentState) (a : ActionPayload) (now : Nat) :
    AgentState × List UIEvent :=
  if a.action = "respond" ∧ truthy a.response then
    (addMessage s ⟨.agent, a.response.getD "", now⟩, [])
  else if a.action = "type" ∧ truthy a.ref ∧ truthy a.text then
    (addMessage s ⟨.agent, a.text.getD "", now⟩, [])
  else if a.action = "click" ∧ truthy a.ref then
    (addMessage s ⟨.system, "Agent clicked: " ++ a.reason.getD (a.ref.getD ""), now⟩, [])
  else if a.action = "needs_user" then
    (addMessage s ⟨.system,
        "Agent needs help: " ++ a.reason.getD "I need your help to proceed.", now⟩,
     [.agent_unsure (a.reason.getD "I need your help to proceed.")
        "The page may require sign-in or other user action."])
  else if a.action = "wait" then
    (s, [.agent_thinking (a.reason.getD "Waiting...")])
  else (s, [])

/-- The `shouldResearch` trigger words. -/
def RESEARCH_TRIGGERS : List String :=
  [ "best we can do", "that\x27s our current", "standard rate"
  , "can\x27t go lower", "our pricing" ]

/-- `shouldResearch`: case-insensitive substring test against the triggers
(`repMessage.toLowerCase().includes(t)`). -/
def shouldResearch (repMessage : String) : Bool :=
  RESEARCH_TRIGGERS.any (fun t => decide (t.data <:+: repMessage.toLower.data))

/-- `pause()`: refuse in `paused`/`idle`/`done`; otherwise remember the phase,
enter `paused`, and clear the debounce and inactivity timers (only those). -/
def pause (s : AgentState) : AgentState :=
  if s.state = .paused ∨ s.state = .idle ∨ s.state = .done then s
  else
    { s with pausedFromState := some s.state, state := .paused,
             debounceTimer := false, inactivityTimer := false }

/-- Synchronous part of `resume()` (through `resetInactivityTimer()`), plus
the scheduled fresh-snapshot `processTurn` continuation recorded in
`dispatchPending`. -/
def resumeSync (s : AgentState) : AgentState :=
  if s.state = .paused ∧ s.pausedFromState ≠ none then
    { s with pausedFromState := none,
             state := s.pausedFromState.getD .negotiating,
             inactivityTimer := true,
             dispatchPending := s.dispatchPending + 1 }
  else s

/-- Synchronous part of `stop()` (through `setState("done")`): stop the stall
manager and observer, remove the snapshot listener, clear every timer and the
typing flag, force-resolve a pending rendezvous as rejected, clear the
approval state and the remembered phase, and enter `done`. -/
def stopSync (s : AgentState) : AgentState :=
  if s.approvalResolve then
    { s with stallTimer := false, observerListening := false,
             debounceTimer := false, inactivityTimer := false,
             userTypingTimer := false, userTyping := false,
             approvalResolved := some (s.approvalResolved.getD false),
             approvalResolve := false, pendingApproval := none,
             pausedFromState := none, state := .done }
  else
    { s with stallTimer := false, observerListening := false,
             debounceTimer := false, inactivityTimer := false,
             userTypingTimer := false, userTyping := false,
             pausedFromState := none, state := .done }

/-- The summary phase of `stop()`: `summarize()` runs only for a nonempty
conversation and may fail (`result = none`, swallowed); on success the summary
is appended as a system message. -/
def stopSummary (s : AgentState) (result : Option String) (now : Nat) : AgentState :=
  if s.conversation ≠ [] then
    match result with
    | some text => addMessage s ⟨.system, "__SUMMARY__\n" ++ text, now⟩
    | none => s
  else s

/-- `stop()` as a whole. -/
def stop (s : AgentState) (result : Option String) (now : Nat) : AgentState :=
  stopSummary (stopSync s) result now

/-- Resolving an already-resolved JS promise keeps the first value. -/
def resolvePromise (pending : Option Bool) (v : Bool) : Option Bool :=
  some (pending.getD v)

/-- `handleApproval(requestId)`. -/
def handleApproval (s : AgentState) (requestId : String) : AgentState :=
  if s.pendingApproval.map ApprovalRequest.id = some requestId ∧ s.approvalResolve then
    { s with approvalDirective := none,
             approvalResolved := resolvePromise s.approvalResolved true }
  else s

/-- `handleRejection(requestId, directive?)`. -/
def handleRejection (s : AgentState) (requestId : String)
    (directive : Option String) : AgentState :=
  if s.pendingApproval.map ApprovalRequest.id = some requestId ∧ s.approvalResolve then
    { s with approvalDirective := directive,
             approvalResolved := resolvePromise s.approvalResolved false }
  else s

/-- `handleUserTyping()`: set suppression, clear the debounce and inactivity
timers, (re)arm the 20 s typing-delay timer. -/
def handleUserTyping (s : AgentState) : AgentState :=
  { s with userTyping := true,
           debounceTimer := false, inactivityTimer := false,
           userTypingTimer := true }

/-- The typing-delay callback: clear suppression, re-arm the watchdog, and
schedule a fresh-snapshot `processTurn`. -/
def userTypingExpire (s : AgentState) : AgentState :=
  { s with userTyping := false, userTypingTimer := false,
           inactivityTimer := true,
           dispatchPending := s.dispatchPending + 1 }

/-- `handleSnapshotChanged`: ignore while paused/idle/done or while the user
is typing; otherwise (re)start the debounce timer with the event's snapshot
and re-arm the inactivity watchdog (for 5 min instead of 15 s when
`detectTypingIndicator` matches — the Boolean timer does not track the
difference). -/
def handleSnapshotChanged (s : AgentState) : AgentState :=
  if s.state = .paused ∨ s.state = .idle ∨ s.state = .done then s
  else if s.userTyping then s
  else { s with debounceTimer := true, inactivityTimer := true }

/-- The `ApprovalRequest` built by `handleCommitmentPoint`: conservative
defaults for missing payload fields; `repOffer` is the text of the last `rep`
message of the conversation. -/
def mkApprovalRequest (s : AgentState) (uuid : String)
    (turn : NegotiationTurnPayload) : ApprovalRequest :=
  let lastRepMessage := s.conversation.reverse.find? (fun m => m.sender == Sender.rep)
  { id := uuid
  , description := turn.offerDescription.getD "Service rep made an offer"
  , repOffer := (lastRepMessage.map ChatMessage.text).getD ""
  , agentRecommendation := turn.recommendation.getD "reject"
  , reasoning := turn.reasoning.getD "Unable to evaluate — asking user to decide."
  , counterSuggestion := turn.counterSuggestion }

/-- Synchronous prefix of `handleCommitmentPoint`, up to the suspension on the
approval promise: build and publish the `ApprovalRequest`, enter
`awaiting_approval`, start the stall manager, install the resolver. -/
def commitmentPrefix (s : AgentState) (uuid : String)
    (turn : NegotiationTurnPayload) : AgentState × List UIEvent :=
  let req := mkApprovalRequest s uuid turn
  ({ s with pendingApproval := some req
          , state := .awaiting_approval
          , stallTimer := true
          , approvalResolve := true
          , commitmentWaiting := true },
   [.status_update .awaiting_approval, .approval_required req])

/-- The action fields of a negotiation payload as `executeAction` reads them
(the `negotiation_turn` schema has no `text` field). -/
def NegotiationTurnPayload.actionOf (t : NegotiationTurnPayload) : ActionPayload :=
  ⟨t.action, t.response, t.ref, none, t.reason⟩

/-- The action fields of a reach-human payload. -/
def ReachTurnPayload.actionOf (t : ReachTurnPayload) : ActionPayload :=
  ⟨t.action, t.response, t.ref, none, t.reason⟩

/-- Processing of a `negotiation_turn` tool result, from the return of
`llm.chatWithTools` (not paused, not typing-suppressed) to either the end of
the turn (including the `finally` that clears the guard and re-arms the
watchdog) or the suspension inside `handleCommitmentPoint`.  `now` is
`Date.now()` at the append, `uuid` the `randomUUID()` draw, `findings` the
external researcher result (`none` for no findings), `serviceProvider` the
config field used in the research event. -/
def negotiationTurnProcess (s : AgentState) (turn : NegotiationTurnPayload)
    (now : Nat) (uuid : String) (findings : Option String)
    (serviceProvider : String) : AgentState × List UIEvent :=
  let deduped := deduplicateMessages s.conversation turn.newMessages
  let s1 := { s with conversation := s.conversation ++ stampBatch now deduped }
  if deduped = [] then
    ({ s1 with waitingForLLM := false, inactivityTimer := true }, [])
  else
    let researchEvents :=
      match (deduped.filter (fun m => m.sender == Sender.rep)).getLast? with
      | some lastRep =>
        if shouldResearch lastRep.text then
          match findings with
          | some f => [UIEvent.research_result serviceProvider f]
          | none => []
        else []
      | none => []
    if turn.isCommitment then
      let pr := commitmentPrefix s1 uuid turn
      (pr.1, researchEvents ++ pr.2)
    else
      let ex := executeAction s1 turn.actionOf now
      ({ ex.1 with waitingForLLM := false, inactivityTimer := true },
       researchEvents ++ ex.2)

/-- Processing of a `reach_human_turn` tool result: append the deduplicated
batch, then either transition to `negotiating` and send the opening message
(`openingMsg` is the `generateResponse` output) or execute the payload's
action; the `finally` clears the guard and re-arms the watchdog. -/
def reachTurnProcess (s : AgentState) (turn : ReachTurnPayload)
    (now : Nat) (openingMsg : String) : AgentState × List UIEvent :=
  let deduped := deduplicateMessages s.conversation turn.newMessages
  let s1 := { s with conversation := s.conversation ++ stampBatch now deduped }
  if turn.humanDetected then
    let s2 := addMessage { s1 with state := .negotiating } ⟨.agent, openingMsg, now⟩
    ({ s2 with waitingForLLM := false, inactivityTimer := true },
     [.status_update .negotiating])
  else
    let ex := executeAction s1 turn.actionOf now
    ({ ex.1 with waitingForLLM := false, inactivityTimer := true }, ex.2)

/-- `extractMessagesOnly` as a whole (entry guard, the extraction call, the
post-await typing check, the append, and the `finally`).  `payload = none`
models an LLM result that is not a tool call. -/
def extractMessagesOnlyFn (s : AgentState) (payload : Option (List NewMessage))
    (now : Nat) : AgentState :=
  if s.waitingForLLM then s
  else if s.userTyping then s
  else
    match payload with
    | some msgs =>
      { s with conversation :=
          s.conversation ++ stampBatch now (deduplicateMessages s.conversation msgs) }
    | none => s

/-- The wake-up of `handleCommitmentPoint` after the approval promise
resolves: stop the stall manager, clear the rendezvous and the
`ApprovalRequest`; abort if the agent was stopped during the wait (running
the turn's `finally`), otherwise return to `negotiating` and start the
closing-message tail. -/
def commitmentWakeFn (s : AgentState) : AgentState :=
  let v := s.approvalResolved.getD false
  let s1 := { s with stallTimer := false,
                     pendingApproval := none, approvalResolve := false,
                     approvalResolved := none, commitmentWaiting := false }
  if s1.state = .done then { s1 with waitingForLLM := false, inactivityTimer := true }
  else { s1 with state := .negotiating, finishingApproved := some v }

/-- The closing-message tail of `handleCommitmentPoint` (fresh snapshot,
`generateResponse`, send, append) followed by `negotiationTurn`'s `finally`.
A rejection consumes the stored directive. -/
def commitmentFinishFn (s : AgentState) (msg : String) (now : Nat) : AgentState :=
  let s1 :=
    if s.finishingApproved = some false then { s with approvalDirective := none } else s
  { s1 with conversation := s1.conversation ++ [⟨.agent, msg, now⟩],
            finishingApproved := none,
            waitingForLLM := false, inactivityTimer := true }

/-! ### The event loop

One `AgentEvent` is one synchronous segment of the TypeScript code between
two `await` points (or a whole synchronous handler); `agentEnabled` states the
guards the code checks at the start of that segment, and `agentStepFn` its
effect.  External inputs (tool-call payloads, clock readings, UUIDs, LLM
text output, researcher findings) are event parameters. -/

inductive AgentEvent
  | startConnect
  | startReach
  | kickoffStart
  | kickoffFinish (a : Option ActionPayload) (now : Nat)
  | snapshotChanged
  | debounceFire
  | processSkip
  | processReachStart
  | processReachDrop
  | processNegotiationStart
  | processNegotiationDrop
  | processExtractStart
  | processExtractDrop
  | reachFinishNoop
  | reachFinishProcess (turn : ReachTurnPayload) (now : Nat) (openingMsg : String)
  | negotiationFinishNoop
  | negotiationFinishProcess (turn : NegotiationTurnPayload) (now : Nat)
      (uuid : String) (findings : Option String)
  | extractFinish (payload : Option (List NewMessage)) (now : Nat)
  | pauseCmd
  | resumeCmd
  | stopCmd
  | approveCmd (requestId : String)
  | rejectCmd (requestId : String) (directive : Option String)
  | userTypingCmd
  | typingExpire
  | userDirectiveCmd (text : String) (now : Nat)
  | userOverrideCmd (text : String) (now : Nat)
  | inactivitySkip
  | inactivityFireReach
  | inactivityFireNegotiating
  | inactivityFinish (followUp : Option String) (now : Nat)
  | commitmentWake
  | commitmentFinish (msg : String) (now : Nat)
deriving DecidableEq, Repr

/-- When each event can occur.
* `start…` — the two awaited segments of `start(url)`;
* `kickoff…` — `kickoff()`'s guard/dispatch and its return;
* `snapshotChanged` — the observer emits only while subscribed;
* `debounceFire` — a pending debounce timeout fires, scheduling `processTurn`;
* `process…` — a scheduled `processTurn` runs; `Skip` covers the
  paused/typing/other-state branches, `…Drop` the per-turn `waitingForLLM`
  skip, `…Start` the dispatch of the phase's LLM call;
* `…Finish…` — an awaited LLM call returns; `Noop` covers the
  discarded-result and non-tool-call branches;
* commands (`pause`/`resume`/`stop`/`approve`/`reject`/typing/directive/
  override) may arrive at any time (their own guards are inside the
  functions);
* `typingExpire` — the 20 s typing-delay timeout fires;
* `inactivity…` — the watchdog fires (`Skip` covers all its skip branches,
  including a `reachHumanTurn` entered with the guard already set);
* `commitmentWake` / `commitmentFinish` — the suspended
  `handleCommitmentPoint` resumes after resolution, then its closing tail
  completes. -/
def agentEnabled (s : AgentState) : AgentEvent → Bool
  | .startConnect => s.state == .idle
  | .startReach => s.state == .connecting
  | .kickoffStart => s.state == .reaching_human && !s.waitingForLLM
  | .kickoffFinish _ _ => s.inFlightKickoff != 0
  | .snapshotChanged => s.observerListening
  | .debounceFire => s.debounceTimer
  | .processSkip =>
    s.dispatchPending != 0 &&
      (s.state == .paused || s.userTyping ||
        s.state == .idle || s.state == .connecting || s.state == .done)
  | .processReachStart =>
    s.dispatchPending != 0 && s.state == .reaching_human && !s.userTyping &&
      !s.waitingForLLM
  | .processReachDrop =>
    s.dispatchPending != 0 && s.state == .reaching_human && !s.userTyping &&
      s.waitingForLLM
  | .processNegotiationStart =>
    s.dispatchPending != 0 && s.state == .negotiating && !s.userTyping &&
      !s.waitingForLLM
  | .processNegotiationDrop =>
    s.dispatchPending != 0 && s.state == .negotiating && !s.userTyping &&
      s.waitingForLLM
  | .processExtractStart =>
    s.dispatchPending != 0 && s.state == .awaiting_approval && !s.userTyping &&
      !s.waitingForLLM
  | .processExtractDrop =>
    s.dispatchPending != 0 && s.state == .awaiting_approval && !s.userTyping &&
      s.waitingForLLM
  | .reachFinishNoop => s.inFlightReach != 0
  | .reachFinishProcess _ _ _ =>
    s.inFlightReach != 0 && !(s.state == .paused) && !s.userTyping
  | .negotiationFinishNoop => s.inFlightNegotiation != 0
  | .negotiationFinishProcess _ _ _ _ =>
    s.inFlightNegotiation != 0 && !(s.state == .paused) && !s.userTyping
  | .extractFinish _ _ => s.inFlightExtract != 0
  | .pauseCmd => true
  | .resumeCmd => true
  | .stopCmd => true
  | .approveCmd _ => true
  | .rejectCmd _ _ => true
  | .userTypingCmd => true
  | .typingExpire => s.userTypingTimer
  | .userDirectiveCmd _ _ => true
  | .userOverrideCmd _ _ => true
  | .inactivitySkip => s.inactivityTimer
  | .inactivityFireReach =>
    s.inactivityTimer && s.state == .reaching_human && !s.userTyping &&
      !s.waitingForLLM
  | .inactivityFireNegotiating =>
    s.inactivityTimer && s.state == .negotiating && !s.userTyping &&
      !s.waitingForLLM
  | .inactivityFinish _ _ => s.inFlightInactivity != 0
  | .commitmentWake => s.commitmentWaiting && s.approvalResolved.isSome
  | .commitmentFinish _ _ => s.finishingApproved.isSome

/-- The effect of each event. -/
def agentStepFn (s : AgentState) : AgentEvent → AgentState
  | .startConnect => { s with state := .connecting }
  | .startReach => { s with state := .reaching_human, observerListening := true }
  | .kickoffStart =>
    { s with waitingForLLM := true, inFlightKickoff := s.inFlightKickoff + 1 }
  | .kickoffFinish a now =>
    let s0 := { s with inFlightKickoff := s.inFlightKickoff - 1 }
    match a with
    | some act =>
      let s1 := (executeAction s0 act now).1
      { s1 with waitingForLLM := false, inactivityTimer := true }
    | none => { s0 with waitingForLLM := false }
  | .snapshotChanged => handleSnapshotChanged s
  | .debounceFire =>
    { s with debounceTimer := false, dispatchPending := s.dispatchPending + 1 }
  | .processSkip => { s with dispatchPending := s.dispatchPending - 1 }
  | .processReachStart =>
    { s with dispatchPending := s.dispatchPending - 1,
             waitingForLLM := true, inFlightReach := s.inFlightReach + 1 }
  | .processReachDrop => { s with dispatchPending := s.dispatchPending - 1 }
  | .processNegotiationStart =>
    { s with dispatchPending := s.dispatchPending - 1,
             waitingForLLM := true, inFlightNegotiation := s.inFlightNegotiation + 1 }
  | .processNegotiationDrop => { s with dispatchPending := s.dispatchPending - 1 }
  | .processExtractStart =>
    { s with dispatchPending := s.dispatchPending - 1,
             waitingForLLM := true, inFlightExtract := s.inFlightExtract + 1 }
  | .processExtractDrop => { s with dispatchPending := s.dispatchPending - 1 }
  | .reachFinishNoop =>
    { s with inFlightReach := s.inFlightReach - 1,
             waitingForLLM := false, inactivityTimer := true }
  | .reachFinishProcess turn now openingMsg =>
    (reachTurnProcess { s with inFlightReach := s.inFlightReach - 1 }
      turn now openingMsg).1
  | .negotiationFinishNoop =>
    { s with inFlightNegotiation := s.inFlightNegotiation - 1,
             waitingForLLM := false, inactivityTimer := true }
  | .negotiationFinishProcess turn now uuid findings =>
    -- the serviceProvider argument only labels the (here discarded) event list
    (negotiationTurnProcess { s with inFlightNegotiation := s.inFlightNegotiation - 1 }
      turn now uuid findings "").1
  | .extractFinish payload now =>
    let s0 := { s with inFlightExtract := s.inFlightExtract - 1 }
    if s0.userTyping then { s0 with waitingForLLM := false }
    else
      match payload with
      | some msgs =>
        { s0 with waitingForLLM := false, conversation :=
            s0.conversation ++ stampBatch now (deduplicateMessages s0.conversation msgs) }
      | none => { s0 with waitingForLLM := false }
  | .pauseCmd => pause s
  | .resumeCmd => resumeSync s
  | .stopCmd => stopSync s
  | .approveCmd requestId => handleApproval s requestId
  | .rejectCmd requestId directive => handleRejection s requestId directive
  | .userTypingCmd => handleUserTyping s
  | .typingExpire => userTypingExpire s
  | .userDirectiveCmd text now =>
    { s with userTypingTimer := false, userTyping := false,
             conversation := s.conversation ++ [⟨.system, "User directive: " ++ text, now⟩] }
  | .userOverrideCmd text now =>
    { s with userTypingTimer := false, userTyping := false,
             conversation := s.conversation ++ [⟨.agent, text, now⟩],
             inactivityTimer := true,
             dispatchPending := s.dispatchPending +
               (if s.state = .reaching_human ∨ s.state = .negotiating then 1 else 0) }
  | .inactivitySkip => { s with inactivityTimer := false }
  | .inactivityFireReach =>
    { s with inactivityTimer := false,
             waitingForLLM := true, inFlightReach := s.inFlightReach + 1 }
  | .inactivityFireNegotiating =>
    { s with inactivityTimer := false,
             inFlightInactivity := s.inFlightInactivity + 1 }
  | .inactivityFinish followUp now =>
    let s0 := { s with inFlightInactivity := s.inFlightInactivity - 1 }
    match followUp with
    | some t =>
      { s0 with conversation := s0.conversation ++ [⟨.agent, t, now⟩],
                inactivityTimer := true }
    | none => { s0 with inactivityTimer := true }
  | .commitmentWake => commitmentWakeFn s
  | .commitmentFinish msg now => commitmentFinishFn s msg now

/-- One step of the event loop. -/
def AgentStep (s s' : AgentState) : Prop :=
  ∃ e, agentEnabled s e = true ∧ s' = agentStepFn s e

/-- A freshly constructed agent (optionally with a prior conversation). -/
def initState (prior : List ChatMessage) : AgentState :=
  { conversation := prior
  , state := .idle
  , debounceTimer := false
  , inactivityTimer := false
  , pendingApproval := none
  , approvalResolve := false
  , approvalDirective := none
  , waitingForLLM := false
  , pausedFromState := none
  , stallTimer := false
  , userTypingTimer := false
  , userTyping := false
  , observerListening := false
  , dispatchPending := 0
  , inFlightKickoff := 0
  , inFlightReach := 0
  , inFlightNegotiation := 0
  , inFlightExtract := 0
  , inFlightInactivity := 0
  , approvalResolved := none
  , commitmentWaiting := false
  , finishingApproved := none }

/-- `startPaused(restoreState)`: the server only ever calls it as
`startPaused("negotiating")` on a freshly constructed agent
(`continue_session`). -/
def startPausedState (prior : List ChatMessage) : AgentState :=
  { initState prior with pausedFromState := some .negotiating, state := .paused }

/-- The two ways a session begins. -/
inductive AgentInit : AgentState → Prop
  | fresh (prior : List ChatMessage) : AgentInit (initState prior)
  | startPaused (prior : List ChatMessage) : AgentInit (startPausedState prior)

/-- States an agent can actually be in. -/
def Reachable (s : AgentState) : Prop :=
  ∃ s0, AgentInit s0 ∧ Relation.ReflTransGen AgentStep s0 s

/-- In-flight LLM invocations from the guarded call sites (those that hold
`waitingForLLM` for their duration). -/
def guardedLLMCalls (s : AgentState) : Nat :=
  s.inFlightKickoff + s.inFlightReach + s.inFlightNegotiation + s.inFlightExtract

/-- All in-flight LLM invocations of the modelled segments (the guarded call
sites plus the inactivity follow-up's `generateResponse`). -/
def totalLLMCalls (s : AgentState) : Nat :=
  guardedLLMCalls s + s.inFlightInactivity

/-- Occupancy of the `waitingForLLM` critical section: a guarded LLM call in
flight, a commitment rendezvous suspension, or the post-resolution closing
tail. -/
def guardOccupancy (s : AgentState) : Nat :=
  guardedLLMCalls s + (cond s.commitmentWaiting 1 0) +
    (cond s.finishingApproved.isSome 1 0)

/-- The inductive invariant of the event loop. -/
def AgentInv (s : AgentState) : Prop :=
  guardOccupancy s ≤ 1 ∧
  (s.waitingForLLM = true ↔ guardOccupancy s = 1) ∧
  (s.pendingApproval.isSome = true ↔ s.approvalResolve = true) ∧
  ((s.approvalResolve = true ∨ s.approvalResolved.isSome = true) →
    s.commitmentWaiting = true) ∧
  (s.pendingApproval.isSome = true ↔
    (s.state = .awaiting_approval ∨
      (s.state = .paused ∧ s.pausedFromState = some .awaiting_approval)))

instance (s : AgentState) : Decidable (AgentInv s) := by
  unfold AgentInv; infer_instance

/-- `executeAction` touches only the conversation log. -/
theorem executeAction_fst_conversation_only (s : AgentState) (a : ActionPayload)
    (now : Nat) :
    ∃ c, (executeAction s a now).1 = { s with conversation := c } := by
  unfold executeAction addMessage
  repeat' split
  all_goals exact ⟨_, rfl⟩

theorem agentInv_init {s : AgentState} (h : AgentInit s) : AgentInv s := by
  cases h with
  | fresh prior =>
    refine ⟨?_, ?_, ?_, ?_, ?_⟩ <;>
      simp [initState, guardOccupancy, guardedLLMCalls]
  | startPaused prior =>
    refine ⟨?_, ?_, ?_, ?_, ?_⟩ <;>
      simp [startPausedState, initState, guardOccupancy, guardedLLMCalls]

/-- While a guarded LLM call is in flight, neither a commitment suspension nor
a closing tail can occupy the critical section. -/
theorem occupancy_guarded_facts {s : AgentState} (h1 : guardOccupancy s ≤ 1)
    (hg : 1 ≤ guardedLLMCalls s) :
    s.commitmentWaiting = false ∧ s.finishingApproved.isSome = false := by
  cases hC : s.commitmentWaiting <;> cases hF : s.finishingApproved.isSome
  · exact ⟨rfl, rfl⟩
  all_goals
    exfalso
    simp only [guardOccupancy, hC, hF, Bool.cond_true, Bool.cond_false] at h1
    omega

/-- While a guarded LLM call is in flight, the approval rendezvous is fully
clear. -/
theorem guarded_call_facts {s : AgentState} (h1 : guardOccupancy s ≤ 1)
    (h3 : s.pendingApproval.isSome = true ↔ s.approvalResolve = true)
    (h4 : s.approvalResolve = true ∨ s.approvalResolved.isSome = true →
      s.commitmentWaiting = true)
    (hg : 1 ≤ guardedLLMCalls s) :
    s.commitmentWaiting = false ∧ s.finishingApproved.isSome = false ∧
      s.approvalResolve = false ∧ s.approvalResolved.isSome = false ∧
      s.pendingApproval.isSome = false := by
  obtain ⟨hC, hF⟩ := occupancy_guarded_facts h1 hg
  have hR : s.approvalResolve = false := by
    cases hR : s.approvalResolve
    · rfl
    · rw [h4 (Or.inl hR)] at hC; cases hC
  have hV : s.approvalResolved.isSome = false := by
    cases hV : s.approvalResolved.isSome
    · rfl
    · rw [h4 (Or.inr hV)] at hC; cases hC
  have hP : s.pendingApproval.isSome = false := by
    cases hP : s.pendingApproval.isSome
    · rfl
    · rw [h3.mp hP] at hR; cases hR
  exact ⟨hC, hF, hR, hV, hP⟩

theorem reachTurnProcess_human_fst (s : AgentState) (turn : ReachTurnPayload)
    (now : Nat) (openingMsg : String) (h : turn.humanDetected = true) :
    (reachTurnProcess s turn now openingMsg).1 =
      { s with
        conversation :=
          (s.conversation ++
            stampBatch now (deduplicateMessages s.conversation turn.newMessages)) ++
            [⟨.agent, openingMsg, now⟩],
        state := .negotiating, waitingForLLM := false, inactivityTimer := true } := by
  unfold reachTurnProcess addMessage
  rw [h]
  rfl

theorem reachTurnProcess_auto_fst (s : AgentState) (turn : ReachTurnPayload)
    (now : Nat) (openingMsg : String) (h : turn.humanDetected = false) :
    ∃ c, (reachTurnProcess s turn now openingMsg).1 =
      { s with conversation := c, waitingForLLM := false, inactivityTimer := true } := by
  unfold reachTurnProcess
  rw [h]
  simp only [Bool.false_eq_true, if_false]
  obtain ⟨c, hc⟩ := executeAction_fst_conversation_only
    { s with conversation :=
        s.conversation ++ stampBatch now (deduplicateMessages s.conversation turn.newMessages) }
    turn.actionOf now
  exact ⟨c, by rw [hc]⟩

theorem negotiationTurnProcess_skip_fst (s : AgentState)
    (turn : NegotiationTurnPayload) (now : Nat) (uuid : String)
    (findings : Option String) (sp : String)
    (h : deduplicateMessages s.conversation turn.newMessages = []) :
    (negotiationTurnProcess s turn now uuid findings sp).1 =
      { s with
        conversation :=
          s.conversation ++
            stampBatch now (deduplicateMessages s.conversation turn.newMessages),
        waitingForLLM := false, inactivityTimer := true } := by
  unfold negotiationTurnProcess
  rw [if_pos h]

theorem negotiationTurnProcess_commit_fst (s : AgentState)
    (turn : NegotiationTurnPayload) (now : Nat) (uuid : String)
    (findings : Option String) (sp : String)
    (h : deduplicateMessages s.conversation turn.newMessages ≠ [])
    (hc : turn.isCommitment = true) :
    (negotiationTurnProcess s turn now uuid findings sp).1 =
      { s with
        conversation :=
          s.conversation ++
            stampBatch now (deduplicateMessages s.conversation turn.newMessages),
        pendingApproval := some (mkApprovalRequest
          { s with conversation :=
              s.conversation ++
                stampBatch now (deduplicateMessages s.conversation turn.newMessages) }
          uuid turn),
        state := .awaiting_approval, stallTimer := true,
        approvalResolve := true, commitmentWaiting := true } := by
  unfold negotiationTurnProcess commitmentPrefix
  rw [if_neg h, hc]
  rfl

theorem negotiationTurnProcess_action_fst (s : AgentState)
    (turn : NegotiationTurnPayload) (now : Nat) (uuid : String)
    (findings : Option String) (sp : String)
    (h : deduplicateMessages s.conversation turn.newMessages ≠ [])
    (hc : turn.isCommitment = false) :
    ∃ c, (negotiationTurnProcess s turn now uuid findings sp).1 =
      { s with conversation := c, waitingForLLM := false, inactivityTimer := true } := by
  unfold negotiationTurnProcess
  rw [if_neg h, hc]
  simp only [Bool.false_eq_true, if_false]
  obtain ⟨c, hce⟩ := executeAction_fst_conversation_only
    { s with conversation :=
        s.conversation ++ stampBatch now (deduplicateMessages s.conversation turn.newMessages) }
    turn.actionOf now
  exact ⟨c, by rw [hce]⟩

theorem extractFinish_frame (s : AgentState) (payload : Option (List NewMessage))
    (now : Nat) :
    ∃ c, agentStepFn s (.extractFinish payload now) =
      { s with conversation := c, inFlightExtract := s.inFlightExtract - 1,
               waitingForLLM := false } := by
  simp only [agentStepFn]
  split
  · exact ⟨_, rfl⟩
  · cases payload
    · exact ⟨_, rfl⟩
    · exact ⟨_, rfl⟩

theorem agentInv_preserved {s s' : AgentState} (h : AgentInv s)
    (hs : AgentStep s s') : AgentInv s' := by
  obtain ⟨e, hen, rfl⟩ := hs
  obtain ⟨h1, h2, h3, h4, h5⟩ := h
  cases e with
  | startConnect =>
    simp only [agentEnabled, beq_iff_eq] at hen
    refine ⟨h1, h2, h3, h4, ?_⟩
    simp only [agentStepFn]
    constructor
    · intro hp
      rcases h5.mp hp with h' | ⟨h', _⟩ <;> (rw [hen] at h'; cases h')
    · rintro (h' | ⟨h', _⟩) <;> cases h'
  | startReach =>
    simp only [agentEnabled, beq_iff_eq] at hen
    refine ⟨h1, h2, h3, h4, ?_⟩
    simp only [agentStepFn]
    constructor
    · intro hp
      rcases h5.mp hp with h' | ⟨h', _⟩ <;> (rw [hen] at h'; cases h')
    · rintro (h' | ⟨h', _⟩) <;> cases h'
  | kickoffStart =>
    simp only [agentEnabled, Bool.and_eq_true, beq_iff_eq, Bool.not_eq_true'] at hen
    have hG0 : guardOccupancy s = 0 := by
      rcases Nat.lt_or_ge (guardOccupancy s) 1 with h' | h'
      · omega
      · exact absurd (h2.mpr (by omega)) (by simp [hen.2])
    refine ⟨?_, ?_, h3, h4, h5⟩
    · simp only [agentStepFn, guardOccupancy, guardedLLMCalls] at hG0 ⊢; omega
    · simp only [agentStepFn, guardOccupancy, guardedLLMCalls] at hG0 ⊢
      constructor
      · intro _; omega
      · intro _; trivial
  | kickoffFinish a now =>
    simp only [agentEnabled, bne_iff_ne] at hen
    have hG1 : guardOccupancy s = 1 := by
      have : 1 ≤ guardOccupancy s := by
        simp only [guardOccupancy, guardedLLMCalls]; omega
      omega
    have hCF : s.commitmentWaiting = false ∧ s.finishingApproved.isSome = false := by
      simp only [guardOccupancy, guardedLLMCalls] at hG1
      cases hC : s.commitmentWaiting <;> cases hF : s.finishingApproved.isSome <;>
        rw [hC, hF] at hG1 <;> simp_all
    simp only [agentStepFn]
    cases a with
    | none =>
      refine ⟨?_, ?_, h3, h4, h5⟩
      · simp only [guardOccupancy, guardedLLMCalls] at hG1 ⊢; omega
      · simp only [guardOccupancy, guardedLLMCalls] at hG1 ⊢
        constructor
        · intro h'; cases h'
        · intro h'; omega
    | some act =>
      obtain ⟨c, hc⟩ := executeAction_fst_conversation_only
        { s with inFlightKickoff := s.inFlightKickoff - 1 } act now
      simp only [hc]
      refine ⟨?_, ?_, h3, h4, h5⟩
      · simp only [guardOccupancy, guardedLLMCalls] at hG1 ⊢; omega
      · simp only [guardOccupancy, guardedLLMCalls] at hG1 ⊢
        constructor
        · intro h'; cases h'
        · intro h'; omega
  | snapshotChanged =>
    simp only [agentStepFn]
    unfold handleSnapshotChanged
    split
    · exact ⟨h1, h2, h3, h4, h5⟩
    · split
      · exact ⟨h1, h2, h3, h4, h5⟩
      · exact ⟨h1, h2, h3, h4, h5⟩
  | debounceFire => exact ⟨h1, h2, h3, h4, h5⟩
  | processSkip => exact ⟨h1, h2, h3, h4, h5⟩
  | processReachDrop => exact ⟨h1, h2, h3, h4, h5⟩
  | processNegotiationDrop => exact ⟨h1, h2, h3, h4, h5⟩
  | processExtractDrop => exact ⟨h1, h2, h3, h4, h5⟩
  | processReachStart =>
    simp only [agentEnabled, Bool.and_eq_true, beq_iff_eq, Bool.not_eq_true',
      bne_iff_ne] at hen
    obtain ⟨⟨⟨hpend, hstate⟩, htyping⟩, hwait⟩ := hen
    have hG0 : guardOccupancy s = 0 := by
      rcases Nat.lt_or_ge (guardOccupancy s) 1 with h' | h'
      · omega
      · exact absurd (h2.mpr (by omega)) (by simp [hwait])
    refine ⟨?_, ?_, h3, h4, h5⟩
    · simp only [agentStepFn, guardOccupancy, guardedLLMCalls] at hG0 ⊢; omega
    · simp only [agentStepFn, guardOccupancy, guardedLLMCalls] at hG0 ⊢
      constructor
      · intro _; omega
      · intro _; trivial
  | processNegotiationStart =>
    simp only [agentEnabled, Bool.and_eq_true, beq_iff_eq, Bool.not_eq_true',
      bne_iff_ne] at hen
    obtain ⟨⟨⟨hpend, hstate⟩, htyping⟩, hwait⟩ := hen
    have hG0 : guardOccupancy s = 0 := by
      rcases Nat.lt_or_ge (guardOccupancy s) 1 with h' | h'
      · omega
      · exact absurd (h2.mpr (by omega)) (by simp [hwait])
    refine ⟨?_, ?_, h3, h4, h5⟩
    · simp only [agentStepFn, guardOccupancy, guardedLLMCalls] at hG0 ⊢; omega
    · simp only [agentStepFn, guardOccupancy, guardedLLMCalls] at hG0 ⊢
      constructor
      · intro _; omega
      · intro _; trivial
  | processExtractStart =>
    simp only [agentEnabled, Bool.and_eq_true, beq_iff_eq, Bool.not_eq_true',
      bne_iff_ne] at hen
    obtain ⟨⟨⟨hpend, hstate⟩, htyping⟩, hwait⟩ := hen
    have hG0 : guardOccupancy s = 0 := by
      rcases Nat.lt_or_ge (guardOccupancy s) 1 with h' | h'
      · omega
      · exact absurd (h2.mpr (by omega)) (by simp [hwait])
    refine ⟨?_, ?_, h3, h4, h5⟩
    · simp only [agentStepFn, guardOccupancy, guardedLLMCalls] at hG0 ⊢; omega
    · simp only [agentStepFn, guardOccupancy, guardedLLMCalls] at hG0 ⊢
      constructor
      · intro _; omega
      · intro _; trivial
  | reachFinishNoop =>
    simp only [agentEnabled, bne_iff_ne] at hen
    refine ⟨?_, ?_, h3, h4, h5⟩
    · simp only [agentStepFn, guardOccupancy, guardedLLMCalls] at h1 ⊢; omega
    · simp only [agentStepFn, guardOccupancy, guardedLLMCalls] at h1 h2 ⊢
      constructor
      · intro h'; cases h'
      · intro h'
        have : s.waitingForLLM = true := h2.mpr (by omega)
        omega
  | negotiationFinishNoop =>
    simp only [agentEnabled, bne_iff_ne] at hen
    refine ⟨?_, ?_, h3, h4, h5⟩
    · simp only [agentStepFn, guardOccupancy, guardedLLMCalls] at h1 ⊢; omega
    · simp only [agentStepFn, guardOccupancy, guardedLLMCalls] at h1 h2 ⊢
      constructor
      · intro h'; cases h'
      · intro h'
        have : s.waitingForLLM = true := h2.mpr (by omega)
        omega
  | reachFinishProcess turn now openingMsg =>
    simp only [agentEnabled, Bool.and_eq_true, bne_iff_ne, Bool.not_eq_true',
      beq_iff_eq, beq_eq_false_iff_ne] at hen
    obtain ⟨⟨hflight, hnp⟩, htyping⟩ := hen
    have hg : 1 ≤ guardedLLMCalls s := by simp only [guardedLLMCalls]; omega
    obtain ⟨hC, hF, hR, hV, hP⟩ := guarded_call_facts h1 h3 h4 hg
    have hna : s.state ≠ .awaiting_approval := by
      intro h'
      rw [h5.mpr (Or.inl h')] at hP; cases hP
    simp only [agentStepFn]
    cases hhd : turn.humanDetected
    · obtain ⟨c, hc⟩ := reachTurnProcess_auto_fst
        { s with inFlightReach := s.inFlightReach - 1 } turn now openingMsg hhd
      rw [hc]
      refine ⟨?_, ?_, h3, h4, ?_⟩
      · simp only [guardOccupancy, guardedLLMCalls, hC, hF, Bool.cond_false] at h1 ⊢
        omega
      · simp only [guardOccupancy, guardedLLMCalls, hC, hF, Bool.cond_false] at h1 ⊢
        constructor
        · intro h'; cases h'
        · intro h'; omega
      · constructor
        · intro hP'; rw [hP] at hP'; cases hP'
        · rintro (h' | ⟨h', _⟩)
          · exact absurd h' hna
          · exact absurd h' hnp
    · rw [reachTurnProcess_human_fst
        { s with inFlightReach := s.inFlightReach - 1 } turn now openingMsg hhd]
      refine ⟨?_, ?_, h3, h4, ?_⟩
      · simp only [guardOccupancy, guardedLLMCalls, hC, hF, Bool.cond_false] at h1 ⊢
        omega
      · simp only [guardOccupancy, guardedLLMCalls, hC, hF, Bool.cond_false] at h1 ⊢
        constructor
        · intro h'; cases h'
        · intro h'; omega
      · constructor
        · intro hP'; rw [hP] at hP'; cases hP'
        · rintro (h' | ⟨h', _⟩) <;> cases h'
  | negotiationFinishProcess turn now uuid findings =>
    simp only [agentEnabled, Bool.and_eq_true, bne_iff_ne, Bool.not_eq_true',
      beq_iff_eq, beq_eq_false_iff_ne] at hen
    obtain ⟨⟨hflight, hnp⟩, htyping⟩ := hen
    have hg : 1 ≤ guardedLLMCalls s := by simp only [guardedLLMCalls]; omega
    obtain ⟨hC, hF, hR, hV, hP⟩ := guarded_call_facts h1 h3 h4 hg
    have hna : s.state ≠ .awaiting_approval := by
      intro h'
      rw [h5.mpr (Or.inl h')] at hP; cases hP
    have hW : s.waitingForLLM = true := by
      refine h2.mpr ?_
      simp only [guardOccupancy, guardedLLMCalls, hC, hF, Bool.cond_false] at h1 ⊢
      omega
    simp only [agentStepFn]
    by_cases hded : deduplicateMessages
        ({ s with inFlightNegotiation := s.inFlightNegotiation - 1 } :
          AgentState).conversation turn.newMessages = []
    · -- deduplicated batch empty: skip, `finally` runs
      rw [negotiationTurnProcess_skip_fst _ turn now uuid findings "" hded]
      refine ⟨?_, ?_, h3, h4, ?_⟩
      · simp only [guardOccupancy, guardedLLMCalls, hC, hF, Bool.cond_false] at h1 ⊢
        omega
      · simp only [guardOccupancy, guardedLLMCalls, hC, hF, Bool.cond_false] at h1 ⊢
        constructor
        · intro h'; cases h'
        · intro h'; omega
      · constructor
        · intro hP'; rw [hP] at hP'; cases hP'
        · rintro (h' | ⟨h', _⟩)
          · exact absurd h' hna
          · exact absurd h' hnp
    · cases hcm : turn.isCommitment
      · -- ordinary turn: execute the action, `finally` runs
        obtain ⟨c, hc⟩ := negotiationTurnProcess_action_fst
          { s with inFlightNegotiation := s.inFlightNegotiation - 1 }
          turn now uuid findings "" hded hcm
        rw [hc]
        refine ⟨?_, ?_, h3, h4, ?_⟩
        · simp only [guardOccupancy, guardedLLMCalls, hC, hF, Bool.cond_false] at h1 ⊢
          omega
        · simp only [guardOccupancy, guardedLLMCalls, hC, hF, Bool.cond_false] at h1 ⊢
          constructor
          · intro h'; cases h'
          · intro h'; omega
        · constructor
          · intro hP'; rw [hP] at hP'; cases hP'
          · rintro (h' | ⟨h', _⟩)
            · exact absurd h' hna
            · exact absurd h' hnp
      · -- commitment: suspend inside `handleCommitmentPoint`
        rw [negotiationTurnProcess_commit_fst
          { s with inFlightNegotiation := s.inFlightNegotiation - 1 }
          turn now uuid findings "" hded hcm]
        refine ⟨?_, ?_, ?_, ?_, ?_⟩
        · simp only [guardOccupancy, guardedLLMCalls, hF, Bool.cond_true,
            Bool.cond_false, Option.isSome_some] at h1 ⊢
          omega
        · simp only [guardOccupancy, guardedLLMCalls, hF, Bool.cond_true,
            Bool.cond_false, Option.isSome_some] at h1 ⊢
          constructor
          · intro _; omega
          · intro _; exact hW
        · simp
        · intro _; rfl
        · simp
  | extractFinish payload now =>
    simp only [agentEnabled, bne_iff_ne] at hen
    have hg : 1 ≤ guardedLLMCalls s := by simp only [guardedLLMCalls]; omega
    obtain ⟨hC, hF, hR, hV, hP⟩ := guarded_call_facts h1 h3 h4 hg
    obtain ⟨c, hc⟩ := extractFinish_frame s payload now
    rw [hc]
    refine ⟨?_, ?_, h3, h4, h5⟩
    · simp only [guardOccupancy, guardedLLMCalls, hC, hF, Bool.cond_false] at h1 ⊢
      omega
    · simp only [guardOccupancy, guardedLLMCalls, hC, hF, Bool.cond_false] at h1 ⊢
      constructor
      · intro h'; cases h'
      · intro h'; omega
  | pauseCmd =>
    simp only [agentStepFn]
    unfold pause
    split
    · exact ⟨h1, h2, h3, h4, h5⟩
    · rename_i hguard
      push_neg at hguard
      obtain ⟨hp, _hi, _hd⟩ := hguard
      refine ⟨h1, h2, h3, h4, ?_⟩
      constructor
      · intro hP
        rcases h5.mp hP with h' | ⟨h', _⟩
        · exact Or.inr ⟨rfl, by rw [h']⟩
        · exact absurd h' hp
      · rintro (h' | ⟨_, h'⟩)
        · cases h'
        · have hst : s.state = .awaiting_approval := by
            injection h'
          exact h5.mpr (Or.inl hst)
  | resumeCmd =>
    simp only [agentStepFn]
    unfold resumeSync
    split
    · rename_i hguard
      obtain ⟨hp, hf⟩ := hguard
      rcases hfrom : s.pausedFromState with _ | st
      · exact absurd hfrom hf
      · refine ⟨h1, h2, h3, h4, ?_⟩
        show s.pendingApproval.isSome = true ↔
          ((some st).getD .negotiating = .awaiting_approval ∨
            ((some st).getD .negotiating = .paused ∧
              (none : Option NegotiationState) = some .awaiting_approval))
        simp only [Option.getD_some]
        constructor
        · intro hP
          rcases h5.mp hP with h' | ⟨_, h''⟩
          · rw [hp] at h'; cases h'
          · rw [hfrom] at h''
            injection h'' with h''
            exact Or.inl h''
        · rintro (h' | ⟨_, h''⟩)
          · exact h5.mpr (Or.inr ⟨hp, by rw [hfrom, h']⟩)
          · cases h''
    · exact ⟨h1, h2, h3, h4, h5⟩
  | stopCmd =>
    simp only [agentStepFn, stopSync]
    split
    · rename_i hRt
      have hC : s.commitmentWaiting = true := h4 (Or.inl hRt)
      refine ⟨h1, h2, ?_, ?_, ?_⟩
      · simp
      · intro _; exact hC
      · constructor
        · intro h'; cases h'
        · rintro (h' | ⟨h', _⟩) <;> cases h'
    · rename_i hRf
      have hRf' : s.approvalResolve = false := by
        cases hR : s.approvalResolve
        · rfl
        · exact absurd hR hRf
      have hP : s.pendingApproval.isSome = false := by
        cases hP : s.pendingApproval.isSome
        · rfl
        · rw [h3.mp hP] at hRf'; cases hRf'
      refine ⟨h1, h2, ?_, ?_, ?_⟩
      · constructor
        · intro h'; rw [hP] at h'; cases h'
        · intro h'; rw [hRf'] at h'; cases h'
      · rintro (h' | h')
        · rw [hRf'] at h'; cases h'
        · exact h4 (Or.inr h')
      · constructor
        · intro h'; rw [hP] at h'; cases h'
        · rintro (h' | ⟨h', _⟩) <;> cases h'
  | approveCmd rid =>
    simp only [agentStepFn]
    unfold handleApproval
    split
    · rename_i hcond
      refine ⟨h1, h2, h3, ?_, h5⟩
      intro _
      exact h4 (Or.inl hcond.2)
    · exact ⟨h1, h2, h3, h4, h5⟩
  | rejectCmd rid directive =>
    simp only [agentStepFn]
    unfold handleRejection
    split
    · rename_i hcond
      refine ⟨h1, h2, h3, ?_, h5⟩
      intro _
      exact h4 (Or.inl hcond.2)
    · exact ⟨h1, h2, h3, h4, h5⟩
  | userTypingCmd =>
    simp only [agentStepFn]
    unfold handleUserTyping
    exact ⟨h1, h2, h3, h4, h5⟩
  | typingExpire =>
    simp only [agentStepFn]
    unfold userTypingExpire
    exact ⟨h1, h2, h3, h4, h5⟩
  | userDirectiveCmd text now => exact ⟨h1, h2, h3, h4, h5⟩
  | userOverrideCmd text now => exact ⟨h1, h2, h3, h4, h5⟩
  | inactivitySkip => exact ⟨h1, h2, h3, h4, h5⟩
  | inactivityFireReach =>
    simp only [agentEnabled, Bool.and_eq_true, beq_iff_eq, Bool.not_eq_true',
      bne_iff_ne] at hen
    obtain ⟨⟨⟨htimer, hstate⟩, htyping⟩, hwait⟩ := hen
    have hG0 : guardOccupancy s = 0 := by
      rcases Nat.lt_or_ge (guardOccupancy s) 1 with h' | h'
      · omega
      · exact absurd (h2.mpr (by omega)) (by simp [hwait])
    refine ⟨?_, ?_, h3, h4, h5⟩
    · simp only [agentStepFn, guardOccupancy, guardedLLMCalls] at hG0 ⊢; omega
    · simp only [agentStepFn, guardOccupancy, guardedLLMCalls] at hG0 ⊢
      constructor
      · intro _; omega
      · intro _; trivial
  | inactivityFireNegotiating => exact ⟨h1, h2, h3, h4, h5⟩
  | inactivityFinish followUp now =>
    simp only [agentStepFn]
    cases followUp <;> exact ⟨h1, h2, h3, h4, h5⟩
  | commitmentWake =>
    simp only [agentEnabled, Bool.and_eq_true] at hen
    obtain ⟨hC, hV⟩ := hen
    have hgF : guardedLLMCalls s = 0 ∧ s.finishingApproved.isSome = false := by
      cases hF : s.finishingApproved.isSome
      · refine ⟨?_, rfl⟩
        simp only [guardOccupancy, hC, hF, Bool.cond_true, Bool.cond_false] at h1
        omega
      · exfalso
        simp only [guardOccupancy, hC, hF, Bool.cond_true] at h1
        omega
    obtain ⟨hg0, hF⟩ := hgF
    obtain ⟨hk1, hk2, hk3, hk4⟩ :
        s.inFlightKickoff = 0 ∧ s.inFlightReach = 0 ∧
          s.inFlightNegotiation = 0 ∧ s.inFlightExtract = 0 := by
      simp only [guardedLLMCalls] at hg0; omega
    have hW : s.waitingForLLM = true := by
      refine h2.mpr ?_
      simp only [guardOccupancy, hC, hF, Bool.cond_true, Bool.cond_false]
      omega
    simp only [agentStepFn, commitmentWakeFn]
    split
    · -- stopped during the wait: abort, run the `finally`
      refine ⟨?_, ?_, ?_, ?_, ?_⟩
      · simp only [guardOccupancy, guardedLLMCalls, hF, hk1, hk2, hk3, hk4,
          Bool.cond_false]
        omega
      · simp only [guardOccupancy, guardedLLMCalls, hF, hk1, hk2, hk3, hk4,
          Bool.cond_false]
        constructor
        · intro h'; cases h'
        · intro h'; simp at h'
      · simp
      · rintro (h' | h') <;> cases h'
      · rename_i hdone
        constructor
        · intro h'; cases h'
        · rintro (h' | ⟨h', _⟩) <;> (rw [hdone] at h'; cases h')
    · refine ⟨?_, ?_, ?_, ?_, ?_⟩
      · simp only [guardOccupancy, guardedLLMCalls, hk1, hk2, hk3, hk4,
          Bool.cond_false, Bool.cond_true, Option.isSome_some]
        omega
      · simp only [guardOccupancy, guardedLLMCalls, hk1, hk2, hk3, hk4,
          Bool.cond_false, Bool.cond_true, Option.isSome_some]
        constructor
        · intro _; decide
        · intro _; exact hW
      · simp
      · rintro (h' | h') <;> cases h'
      · constructor
        · intro h'; cases h'
        · rintro (h' | ⟨h', _⟩) <;> cases h'
  | commitmentFinish msg now =>
    simp only [agentEnabled] at hen
    have hgC : guardedLLMCalls s = 0 ∧ s.commitmentWaiting = false := by
      cases hC : s.commitmentWaiting
      · refine ⟨?_, rfl⟩
        simp only [guardOccupancy, hC, hen, Bool.cond_true, Bool.cond_false] at h1
        omega
      · exfalso
        simp only [guardOccupancy, hC, hen, Bool.cond_true] at h1
        omega
    obtain ⟨hg0, hC⟩ := hgC
    obtain ⟨hk1, hk2, hk3, hk4⟩ :
        s.inFlightKickoff = 0 ∧ s.inFlightReach = 0 ∧
          s.inFlightNegotiation = 0 ∧ s.inFlightExtract = 0 := by
      simp only [guardedLLMCalls] at hg0; omega
    have hR : s.approvalResolve = false := by
      cases hR : s.approvalResolve
      · rfl
      · rw [h4 (Or.inl hR)] at hC; cases hC
    have hV : s.approvalResolved.isSome = false := by
      cases hV : s.approvalResolved.isSome
      · rfl
      · rw [h4 (Or.inr hV)] at hC; cases hC
    have hP : s.pendingApproval.isSome = false := by
      cases hP : s.pendingApproval.isSome
      · rfl
      · rw [h3.mp hP] at hR; cases hR
    simp only [agentStepFn, commitmentFinishFn]
    split <;> refine ⟨?_, ?_, h3, ?_, h5⟩
    · simp only [guardOccupancy, guardedLLMCalls, hC, hk1, hk2, hk3, hk4,
        Bool.cond_false, Option.isSome_none]
      omega
    · simp only [guardOccupancy, guardedLLMCalls, hC, hk1, hk2, hk3, hk4,
        Bool.cond_false, Option.isSome_none]
      constructor
      · intro h'; cases h'
      · intro h'; simp at h'
    · rintro (h' | h')
      · rw [hR] at h'; cases h'
      · rw [hV] at h'; cases h'
    · simp only [guardOccupancy, guardedLLMCalls, hC, hk1, hk2, hk3, hk4,
        Bool.cond_false, Option.isSome_none]
      omega
    · simp only [guardOccupancy, guardedLLMCalls, hC, hk1, hk2, hk3, hk4,
        Bool.cond_false, Option.isSome_none]
      constructor
      · intro h'; cases h'
      · intro h'; simp at h'
    · rintro (h' | h')
      · rw [hR] at h'; cases h'
      · rw [hV] at h'; cases h'

theorem reachable_inv {s : AgentState} (h : Reachable s) : AgentInv s := by
  obtain ⟨s0, hinit, hsteps⟩ := h
  induction hsteps with
  | refl => exact agentInv_init hinit
  | tail _ hstep ih => exact agentInv_preserved ih hstep

/-- Executing a list of event-loop events. -/
def runEvents (s : AgentState) (es : List AgentEvent) : AgentState :=
  es.foldl agentStepFn s

/-- All events of the list are enabled in sequence. -/
def eventsEnabled : AgentState → List AgentEvent → Bool
  | _, [] => true
  | s, e :: es => agentEnabled s e && eventsEnabled (agentStepFn s e) es

theorem reachable_runEvents_of_reachable {s : AgentState} (es : List AgentEvent) :
    Reachable s → eventsEnabled s es = true → Reachable (runEvents s es) := by
  induction es generalizing s with
  | nil => intro h _; exact h
  | cons e rest ih =>
    intro h hen
    simp only [eventsEnabled, Bool.and_eq_true] at hen
    refine ih ?_ hen.2
    obtain ⟨s0, hinit, hsteps⟩ := h
    exact ⟨s0, hinit, hsteps.tail ⟨e, hen.1, rfl⟩⟩

theorem runEvents_reachable (prior : List ChatMessage) (es : List AgentEvent)
    (hen : eventsEnabled (initState prior) es = true) :
    Reachable (runEvents (initState prior) es) :=
  reachable_runEvents_of_reachable es
    ⟨initState prior, AgentInit.fresh prior, Relation.ReflTransGen.refl⟩ hen

/-! ### Concrete execution traces used in the analyses -/

/-- A `reach_human_turn` result confirming a human. -/
def humanPayload : ReachTurnPayload :=
  { newMessages := [⟨.rep, "Hi, this is Sam from retention"⟩]
  , humanDetected := true
  , humanEvidence := "introduced themselves by name"
  , action := "wait", response := none, ref := none, reason := none }

/-- A `negotiation_turn` result reporting a commitment with one new message. -/
def commitPayload : NegotiationTurnPayload :=
  { newMessages := [⟨.rep, "I can offer you 20 dollars off per month"⟩]
  , isCommitment := true
  , offerDescription := some "20 dollars off per month"
  , recommendation := some "counter"
  , reasoning := some "A bigger discount may be available"
  , counterSuggestion := some "Ask for 30 dollars off"
  , action := "wait", response := none, ref := none, reason := none }

/-- A `negotiation_turn` result reporting a commitment but no new messages. -/
def emptyCommitPayload : NegotiationTurnPayload :=
  { newMessages := []
  , isCommitment := true
  , offerDescription := some "20 dollars off per month"
  , recommendation := some "counter"
  , reasoning := some "A bigger discount may be available"
  , counterSuggestion := some "Ask for 30 dollars off"
  , action := "wait", response := none, ref := none, reason := none }

/-- Session start through the first human-confirming turn: the agent ends up
`negotiating`. -/
def toNegotiatingEvents : List AgentEvent :=
  [ .startConnect, .startReach, .kickoffStart, .kickoffFinish none 500
  , .snapshotChanged, .debounceFire, .processReachStart
  , .reachFinishProcess humanPayload 1000 "Hello, I would like to discuss my bill" ]

/-- …followed by a commitment-detecting negotiation turn: the agent ends up
`awaiting_approval` with a pending `ApprovalRequest` and the stall timer on. -/
def toAwaitingApprovalEvents : List AgentEvent :=
  toNegotiatingEvents ++
    [ .snapshotChanged, .debounceFire, .processNegotiationStart
    , .negotiationFinishProcess commitPayload 2000 "req-1" none ]

/-- How one event can change the in-flight LLM call counters: either neither
the guarded count nor the total count grows, or the event is one of the call
dispatches, whose code guards require `waitingForLLM` to be clear and the
phase not to be `paused`. -/
theorem step_calls_facts (s : AgentState) (e : AgentEvent)
    (hen : agentEnabled s e = true) :
    (guardedLLMCalls (agentStepFn s e) ≤ guardedLLMCalls s ∧
      totalLLMCalls (agentStepFn s e) ≤ totalLLMCalls s) ∨
    (s.waitingForLLM = false ∧ s.state ≠ .paused) := by
  cases e with
  | startConnect => exact Or.inl ⟨Nat.le_refl _, Nat.le_refl _⟩
  | startReach => exact Or.inl ⟨Nat.le_refl _, Nat.le_refl _⟩
  | kickoffStart =>
    right
    simp only [agentEnabled, Bool.and_eq_true, beq_iff_eq, Bool.not_eq_true'] at hen
    exact ⟨hen.2, by rw [hen.1]; decide⟩
  | kickoffFinish a now =>
    left
    cases a with
    | none =>
      simp only [agentStepFn]
      constructor <;> (simp only [guardedLLMCalls, totalLLMCalls]; omega)
    | some act =>
      simp only [agentStepFn]
      obtain ⟨c, hc⟩ := executeAction_fst_conversation_only
        { s with inFlightKickoff := s.inFlightKickoff - 1 } act now
      rw [hc]
      constructor <;> (simp only [guardedLLMCalls, totalLLMCalls]; omega)
  | snapshotChanged =>
    left
    simp only [agentStepFn]
    unfold handleSnapshotChanged
    split
    · exact ⟨Nat.le_refl _, Nat.le_refl _⟩
    · split
      · exact ⟨Nat.le_refl _, Nat.le_refl _⟩
      · exact ⟨Nat.le_refl _, Nat.le_refl _⟩
  | debounceFire => exact Or.inl ⟨Nat.le_refl _, Nat.le_refl _⟩
  | processSkip => exact Or.inl ⟨Nat.le_refl _, Nat.le_refl _⟩
  | processReachDrop => exact Or.inl ⟨Nat.le_refl _, Nat.le_refl _⟩
  | processNegotiationDrop => exact Or.inl ⟨Nat.le_refl _, Nat.le_refl _⟩
  | processExtractDrop => exact Or.inl ⟨Nat.le_refl _, Nat.le_refl _⟩
  | processReachStart =>
    right
    simp only [agentEnabled, Bool.and_eq_true, beq_iff_eq, Bool.not_eq_true',
      bne_iff_ne] at hen
    exact ⟨hen.2, by rw [hen.1.1.2]; decide⟩
  | processNegotiationStart =>
    right
    simp only [agentEnabled, Bool.and_eq_true, beq_iff_eq, Bool.not_eq_true',
      bne_iff_ne] at hen
    exact ⟨hen.2, by rw [hen.1.1.2]; decide⟩
  | processExtractStart =>
    right
    simp only [agentEnabled, Bool.and_eq_true, beq_iff_eq, Bool.not_eq_true',
      bne_iff_ne] at hen
    exact ⟨hen.2, by rw [hen.1.1.2]; decide⟩
  | reachFinishNoop =>
    left
    simp only [agentStepFn]
    constructor <;> (simp only [guardedLLMCalls, totalLLMCalls]; omega)
  | reachFinishProcess turn now openingMsg =>
    left
    simp only [agentStepFn]
    cases hhd : turn.humanDetected
    · obtain ⟨c, hc⟩ := reachTurnProcess_auto_fst
        { s with inFlightReach := s.inFlightReach - 1 } turn now openingMsg hhd
      rw [hc]
      constructor <;> (simp only [guardedLLMCalls, totalLLMCalls]; omega)
    · rw [reachTurnProcess_human_fst
        { s with inFlightReach := s.inFlightReach - 1 } turn now openingMsg hhd]
      constructor <;> (simp only [guardedLLMCalls, totalLLMCalls]; omega)
  | negotiationFinishNoop =>
    left
    simp only [agentStepFn]
    constructor <;> (simp only [guardedLLMCalls, totalLLMCalls]; omega)
  | negotiationFinishProcess turn now uuid findings =>
    left
    simp only [agentStepFn]
    by_cases hded : deduplicateMessages
        ({ s with inFlightNegotiation := s.inFlightNegotiation - 1 } :
          AgentState).conversation turn.newMessages = []
    · rw [negotiationTurnProcess_skip_fst _ turn now uuid findings "" hded]
      constructor <;> (simp only [guardedLLMCalls, totalLLMCalls]; omega)
    · cases hcm : turn.isCommitment
      · obtain ⟨c, hc⟩ := negotiationTurnProcess_action_fst
          { s with inFlightNegotiation := s.inFlightNegotiation - 1 }
          turn now uuid findings "" hded hcm
        rw [hc]
        constructor <;> (simp only [guardedLLMCalls, totalLLMCalls]; omega)
      · rw [negotiationTurnProcess_commit_fst
          { s with inFlightNegotiation := s.inFlightNegotiation - 1 }
          turn now uuid findings "" hded hcm]
        constructor <;> (simp only [guardedLLMCalls, totalLLMCalls]; omega)
  | extractFinish payload now =>
    left
    obtain ⟨c, hc⟩ := extractFinish_frame s payload now
    rw [hc]
    constructor <;> (simp only [guardedLLMCalls, totalLLMCalls]; omega)
  | pauseCmd =>
    left
    simp only [agentStepFn]
    unfold pause
    split
    · exact ⟨Nat.le_refl _, Nat.le_refl _⟩
    · exact ⟨Nat.le_refl _, Nat.le_refl _⟩
  | resumeCmd =>
    left
    simp only [agentStepFn]
    unfold resumeSync
    split
    · exact ⟨Nat.le_refl _, Nat.le_refl _⟩
    · exact ⟨Nat.le_refl _, Nat.le_refl _⟩
  | stopCmd =>
    left
    simp only [agentStepFn, stopSync]
    split
    · exact ⟨Nat.le_refl _, Nat.le_refl _⟩
    · exact ⟨Nat.le_refl _, Nat.le_refl _⟩
  | approveCmd rid =>
    left
    simp only [agentStepFn]
    unfold handleApproval
    split
    · exact ⟨Nat.le_refl _, Nat.le_refl _⟩
    · exact ⟨Nat.le_refl _, Nat.le_refl _⟩
  | rejectCmd rid directive =>
    left
    simp only [agentStepFn]
    unfold handleRejection
    split
    · exact ⟨Nat.le_refl _, Nat.le_refl _⟩
    · exact ⟨Nat.le_refl _, Nat.le_refl _⟩
  | userTypingCmd =>
    left
    simp only [agentStepFn]
    unfold handleUserTyping
    exact ⟨Nat.le_refl _, Nat.le_refl _⟩
  | typingExpire =>
    left
    simp only [agentStepFn]
    unfold userTypingExpire
    exact ⟨Nat.le_refl _, Nat.le_refl _⟩
  | userDirectiveCmd text now => exact Or.inl ⟨Nat.le_refl _, Nat.le_refl _⟩
  | userOverrideCmd text now => exact Or.inl ⟨Nat.le_refl _, Nat.le_refl _⟩
  | inactivitySkip => exact Or.inl ⟨Nat.le_refl _, Nat.le_refl _⟩
  | inactivityFireReach =>
    right
    simp only [agentEnabled, Bool.and_eq_true, beq_iff_eq, Bool.not_eq_true'] at hen
    exact ⟨hen.2, by rw [hen.1.1.2]; decide⟩
  | inactivityFireNegotiating =>
    right
    simp only [agentEnabled, Bool.and_eq_true, beq_iff_eq, Bool.not_eq_true'] at hen
    exact ⟨hen.2, by rw [hen.1.1.2]; decide⟩
  | inactivityFinish followUp now =>
    left
    simp only [agentStepFn]
    cases followUp with
    | none => constructor <;> (simp only [guardedLLMCalls, totalLLMCalls]; omega)
    | some t => constructor <;> (simp only [guardedLLMCalls, totalLLMCalls]; omega)
  | commitmentWake =>
    left
    simp only [agentStepFn, commitmentWakeFn]
    split
    · exact ⟨Nat.le_refl _, Nat.le_refl _⟩
    · exact ⟨Nat.le_refl _, Nat.le_refl _⟩
  | commitmentFinish msg now =>
    left
    simp only [agentStepFn, commitmentFinishFn]
    split
    · exact ⟨Nat.le_refl _, Nat.le_refl _⟩
    · exact ⟨Nat.le_refl _, Nat.le_refl _⟩

/-! ## Claim theorems for the Negotiation Core -/

/-- The reachable state used in the C1 counterexample: a commitment was
detected (so an `ApprovalRequest` is pending) and then `pause()` was issued. -/
def c1PausedState : AgentState :=
  runEvents (initState []) (toAwaitingApprovalEvents ++ [.pauseCmd])

/-- C1 counterexample: in a reachable state an `ApprovalRequest` exists while
the phase is `paused`, not `awaiting_approval` — `pause()` has no guard
against `awaiting_approval` and does not touch `pendingApproval`, so the
"exists iff phase = awaiting_approval" invariant is false as stated. -/
theorem approval_phase_iff_counterexample :
    Reachable c1PausedState ∧ c1PausedState.pendingApproval.isSome = true ∧
      c1PausedState.state = .paused ∧ c1PausedState.state ≠ .awaiting_approval :=
  ⟨runEvents_reachable [] _ (by decide), by decide, by decide, by decide⟩

/-- C1 (amended): in every reachable state there is at most one
`ApprovalRequest` (the single `pendingApproval` field), and one exists iff the
phase is `awaiting_approval` or the phase is `paused` with remembered phase
`awaiting_approval`; this is preserved by every modelled operation. -/
theorem approval_request_invariant (s : AgentState) (h : Reachable s) :
    s.pendingApproval.isSome = true ↔
      (s.state = .awaiting_approval ∨
        (s.state = .paused ∧ s.pausedFromState = some .awaiting_approval)) :=
  (reachable_inv h).2.2.2.2

/-- Witness for `approval_request_invariant` at the reachable
`awaiting_approval` state produced by `toAwaitingApprovalEvents`. -/
theorem approval_request_invariant_witness :
    (runEvents (initState []) toAwaitingApprovalEvents).pendingApproval.isSome = true ↔
      ((runEvents (initState []) toAwaitingApprovalEvents).state = .awaiting_approval ∨
        ((runEvents (initState []) toAwaitingApprovalEvents).state = .paused ∧
          (runEvents (initState []) toAwaitingApprovalEvents).pausedFromState =
            some .awaiting_approval)) :=
  approval_request_invariant _ (runEvents_reachable [] _ (by decide))

/-- The reachable `negotiating` state used in the C2 counterexample. -/
def c2State : AgentState := runEvents (initState []) toNegotiatingEvents

/-- C2 counterexample: a `negotiating`-phase decision result with
`isCommitment = true` whose `newMessages` all deduplicate away (here: an empty
batch) does *not* transition to `awaiting_approval`, publishes no event at
all, and does not start the stall scheduler — `negotiationTurn` returns at its
"no new messages after dedup" check before the commitment branch. -/
theorem commitment_without_new_messages_counterexample :
    Reachable c2State ∧ c2State.state = .negotiating ∧
      emptyCommitPayload.isCommitment = true ∧
      (negotiationTurnProcess c2State emptyCommitPayload 2500 "req-2" none
        "BigTelco").1.state = .negotiating ∧
      (negotiationTurnProcess c2State emptyCommitPayload 2500 "req-2" none
        "BigTelco").2 = [] ∧
      (negotiationTurnProcess c2State emptyCommitPayload 2500 "req-2" none
        "BigTelco").1.stallTimer = false :=
  ⟨runEvents_reachable [] _ (by decide), by decide, rfl, by decide, by decide,
    by decide⟩

theorem negotiationTurnProcess_commit_snd (s : AgentState)
    (turn : NegotiationTurnPayload) (now : Nat) (uuid : String)
    (findings : Option String) (sp : String)
    (h : deduplicateMessages s.conversation turn.newMessages ≠ [])
    (hc : turn.isCommitment = true) :
    ∃ pre, (negotiationTurnProcess s turn now uuid findings sp).2 =
      pre ++ [UIEvent.status_update .awaiting_approval,
        UIEvent.approval_required (mkApprovalRequest
          { s with conversation :=
              s.conversation ++
                stampBatch now (deduplicateMessages s.conversation turn.newMessages) }
          uuid turn)] := by
  unfold negotiationTurnProcess commitmentPrefix
  rw [if_neg h, hc]
  exact ⟨_, rfl⟩

/-- C2 (amended): every `negotiating`-phase decision result that reports a
commitment *and contributes at least one deduplicated new message* moves the
phase to `awaiting_approval`, starts the stall scheduler, and publishes an
`approval_required` event whose request carries
`recommendation ?? "reject"` and the payload's counter-suggestion. -/
theorem commitment_transition_amended (s : AgentState)
    (turn : NegotiationTurnPayload) (now : Nat) (uuid : String)
    (findings : Option String) (sp : String)
    (_hst : s.state = .negotiating) (hc : turn.isCommitment = true)
    (hded : deduplicateMessages s.conversation turn.newMessages ≠ []) :
    (negotiationTurnProcess s turn now uuid findings sp).1.state =
        .awaiting_approval ∧
      (negotiationTurnProcess s turn now uuid findings sp).1.stallTimer = true ∧
      ∃ req : ApprovalRequest,
        (negotiationTurnProcess s turn now uuid findings sp).1.pendingApproval =
            some req ∧
          UIEvent.approval_required req ∈
            (negotiationTurnProcess s turn now uuid findings sp).2 ∧
          req.agentRecommendation = turn.recommendation.getD "reject" ∧
          req.counterSuggestion = turn.counterSuggestion := by
  obtain ⟨pre, hsnd⟩ := negotiationTurnProcess_commit_snd s turn now uuid findings sp
    hded hc
  rw [negotiationTurnProcess_commit_fst s turn now uuid findings sp hded hc, hsnd]
  refine ⟨rfl, rfl, _, rfl, ?_, rfl, rfl⟩
  exact List.mem_append_right pre (by simp)

/-- Witness for `commitment_transition_amended` at the reachable
`negotiating` state with the commitment payload used in the traces. -/
theorem commitment_transition_amended_witness :
    (negotiationTurnProcess c2State commitPayload 2000 "req-1" none
        "BigTelco").1.state = .awaiting_approval ∧
      (negotiationTurnProcess c2State commitPayload 2000 "req-1" none
        "BigTelco").1.stallTimer = true := by
  have h := commitment_transition_amended c2State commitPayload 2000 "req-1" none
    "BigTelco" (by decide) rfl (by decide)
  exact ⟨h.1, h.2.1⟩

/-- In every reachable `awaiting_approval` state the `waitingForLLM` guard is
still held by the `negotiationTurn` suspended inside `handleCommitmentPoint`. -/
theorem waiting_of_awaiting_approval {s : AgentState} (h : Reachable s)
    (hst : s.state = .awaiting_approval) : s.waitingForLLM = true := by
  obtain ⟨h1, h2, h3, h4, h5⟩ := reachable_inv h
  have hP := h5.mpr (Or.inl hst)
  have hR := h3.mp hP
  have hC := h4 (Or.inl hR)
  refine h2.mpr ?_
  simp only [guardOccupancy, hC, Bool.cond_true] at h1 ⊢
  omega

/-- C3: an extraction-only turn dispatched in any reachable
`awaiting_approval` state is a complete no-op — `extractMessagesOnly` returns
at its `waitingForLLM` guard, because the suspended commitment turn still
holds the flag, so no newly observed remote message is ever appended while a
human deliberates. -/
theorem extraction_turn_never_extracts (s : AgentState) (h : Reachable s)
    (hst : s.state = .awaiting_approval)
    (payload : Option (List NewMessage)) (now : Nat) :
    extractMessagesOnlyFn s payload now = s := by
  have hW := waiting_of_awaiting_approval h hst
  unfold extractMessagesOnlyFn
  rw [if_pos hW]

/-- The reachable `awaiting_approval` state used for the C3 evaluation. -/
def c3State : AgentState := runEvents (initState []) toAwaitingApprovalEvents

/-- Witness for `extraction_turn_never_extracts`: a rep message visible during
the approval wait that would survive deduplication (it is genuinely new) is
nevertheless not appended to the log. -/
theorem extraction_turn_never_extracts_witness :
    extractMessagesOnlyFn c3State
        (some [⟨Sender.rep, "Actually I can do 25 dollars off"⟩]) 3000 = c3State ∧
      deduplicateMessages c3State.conversation
        [⟨Sender.rep, "Actually I can do 25 dollars off"⟩] ≠ [] :=
  ⟨extraction_turn_never_extracts c3State (runEvents_reachable [] _ (by decide))
    (by decide) _ _, by decide⟩

theorem stopSummary_frame (s : AgentState) (result : Option String) (now : Nat) :
    ∃ c, stopSummary s result now = { s with conversation := c } := by
  unfold stopSummary addMessage
  repeat' split
  all_goals exact ⟨_, rfl⟩

/-- C4: `stop()`, called in any reachable state, clears every timer, stops the
observer and removes its listener, clears the approval state (force-resolving
a still-unresolved rendezvous as rejected), and reaches the terminal `done`
phase — whether or not the closing summary generation succeeds
(`result = none` models its failure). -/
theorem stop_contract (s : AgentState) (h : Reachable s) (result : Option String)
    (now : Nat) :
    (stop s result now).state = .done ∧
      (stop s result now).debounceTimer = false ∧
      (stop s result now).inactivityTimer = false ∧
      (stop s result now).userTypingTimer = false ∧
      (stop s result now).stallTimer = false ∧
      (stop s result now).observerListening = false ∧
      (stop s result now).pendingApproval = none ∧
      (stop s result now).approvalResolve = false ∧
      (s.approvalResolve = true → s.approvalResolved = none →
        (stop s result now).approvalResolved = some false) := by
  obtain ⟨h1, h2, h3, h4, h5⟩ := reachable_inv h
  obtain ⟨c, hc⟩ := stopSummary_frame (stopSync s) result now
  unfold stop
  rw [hc]
  unfold stopSync
  split
  · refine ⟨rfl, rfl, rfl, rfl, rfl, rfl, rfl, rfl, ?_⟩
    intro _ hV
    show some (s.approvalResolved.getD false) = some false
    rw [hV]
    rfl
  · refine ⟨rfl, rfl, rfl, rfl, rfl, rfl, ?_, ?_, ?_⟩
    · rename_i hRf
      have hR : s.approvalResolve = false := by
        cases hR : s.approvalResolve
        · rfl
        · exact absurd hR hRf
      have hP : s.pendingApproval.isSome = false := by
        cases hP : s.pendingApproval.isSome
        · rfl
        · rw [h3.mp hP] at hR; cases hR
      show s.pendingApproval = none
      cases hpa : s.pendingApproval
      · rfl
      · rw [hpa] at hP; cases hP
    · rename_i hRf
      show s.approvalResolve = false
      cases hR : s.approvalResolve
      · rfl
      · exact absurd hR hRf
    · rename_i hRf
      intro hR _
      exact absurd hR hRf

/-- Witness for `stop_contract` at a reachable `awaiting_approval` state with
a failing summary: stop still completes, reaches `done`, and resolves the
rendezvous as rejected. -/
theorem stop_contract_witness :
    (stop c3State none 5000).state = .done ∧
      (stop c3State none 5000).approvalResolved = some false := by
  have h := stop_contract c3State (runEvents_reachable [] _ (by decide)) none 5000
  exact ⟨h.1, h.2.2.2.2.2.2.2.2 (by decide) (by decide)⟩

/-- The C5 counterexample state: the inactivity follow-up generation call and
a debounce-triggered negotiation turn call are in flight simultaneously. -/
def c5State : AgentState :=
  runEvents (initState []) (toNegotiatingEvents ++
    [.inactivityFireNegotiating, .snapshotChanged, .debounceFire,
      .processNegotiationStart])

/-- C5 counterexample: a reachable state with two outstanding LLM invocations
— `handleInactivity` checks `waitingForLLM` but never sets it, so its
`generateResponse` call can overlap a turn's `chatWithTools` call. -/
theorem single_flight_counterexample :
    Reachable c5State ∧ totalLLMCalls c5State = 2 :=
  ⟨runEvents_reachable [] _ (by decide), by decide⟩

/-- C5 (amended): at most one *guarded* decision call (kickoff, reach-human
turn, negotiation turn, extraction turn — the sites that set `waitingForLLM`)
is outstanding in any reachable state, and while the flag is set no event
starts another guarded call (such events are dropped, not queued); the
inactivity follow-up's generation call is outside the guard and can overlap. -/
theorem guarded_single_flight (s : AgentState) (h : Reachable s) :
    guardedLLMCalls s ≤ 1 ∧
      ∀ s', AgentStep s s' → s.waitingForLLM = true →
        guardedLLMCalls s' ≤ guardedLLMCalls s := by
  constructor
  · have h1 := (reachable_inv h).1
    simp only [guardOccupancy] at h1
    omega
  · rintro s' ⟨e, hen, rfl⟩ hW
    rcases step_calls_facts s e hen with ⟨hg, _⟩ | ⟨hw, _⟩
    · exact hg
    · rw [hW] at hw; cases hw

/-- Witness for `guarded_single_flight` at a reachable state. -/
theorem guarded_single_flight_witness :
    guardedLLMCalls (runEvents (initState []) toNegotiatingEvents) ≤ 1 :=
  (guarded_single_flight _ (runEvents_reachable [] _ (by decide))).1

/-- The C7 counterexample state: `awaiting_approval` with the stall timer
running and a user-typing delay timer armed. -/
def c7State : AgentState :=
  runEvents (initState []) (toAwaitingApprovalEvents ++ [.userTypingCmd])

/-- C7 counterexample: `pause()` does not cancel every active timer — in a
reachable state with the user-typing delay timer and the stall timer armed,
both survive `pause()` (only the debounce and inactivity timers are
cleared). -/
theorem pause_cancels_all_timers_counterexample :
    Reachable c7State ∧ c7State.userTypingTimer = true ∧
      c7State.stallTimer = true ∧ (pause c7State).state = .paused ∧
      (pause c7State).userTypingTimer = true ∧ (pause c7State).stallTimer = true :=
  ⟨runEvents_reachable [] _ (by decide), by decide, by decide, by decide,
    by decide, by decide⟩

/-- C7 (amended): `pause()` freezes the phase and cancels the debounce and
inactivity timers (the typing-delay and stall timers are untouched); while
paused no event dispatches a decision call (the total in-flight count never
grows); `resumeSync` restores the remembered phase, re-arms the inactivity
watchdog, and schedules exactly one fresh-snapshot turn. -/
theorem pause_resume_amended :
    (∀ s : AgentState, ¬(s.state = .paused ∨ s.state = .idle ∨ s.state = .done) →
      (pause s).state = .paused ∧ (pause s).pausedFromState = some s.state ∧
        (pause s).debounceTimer = false ∧ (pause s).inactivityTimer = false) ∧
    (∀ s s' : AgentState, s.state = .paused → AgentStep s s' →
      totalLLMCalls s' ≤ totalLLMCalls s) ∧
    (∀ (s : AgentState) (st : NegotiationState), s.state = .paused →
      s.pausedFromState = some st →
      (resumeSync s).state = st ∧ (resumeSync s).inactivityTimer = true ∧
        (resumeSync s).dispatchPending = s.dispatchPending + 1) := by
  refine ⟨?_, ?_, ?_⟩
  · intro s hns
    unfold pause
    rw [if_neg hns]
    exact ⟨rfl, rfl, rfl, rfl⟩
  · rintro s s' hp ⟨e, hen, rfl⟩
    rcases step_calls_facts s e hen with ⟨_, ht⟩ | ⟨_, hnp⟩
    · exact ht
    · exact absurd hp hnp
  · intro s st hp hf
    unfold resumeSync
    rw [if_pos ⟨hp, by rw [hf]; exact Option.some_ne_none st⟩]
    refine ⟨?_, rfl, rfl⟩
    show s.pausedFromState.getD .negotiating = st
    rw [hf]
    rfl

/-- Witness for `pause_resume_amended` at a reachable `negotiating` state. -/
theorem pause_resume_amended_witness :
    (pause (runEvents (initState []) toNegotiatingEvents)).state = .paused ∧
      (resumeSync (pause (runEvents (initState [])
        toNegotiatingEvents))).state = .negotiating := by
  have h := pause_resume_amended
  refine ⟨(h.1 _ (by decide)).1, ?_⟩
  exact (h.2.2 (pause (runEvents (initState []) toNegotiatingEvents))
    .negotiating (by decide) (by decide)).1

/-- C10: `handleApproval` / `handleRejection` with a request id that does not
match the pending `ApprovalRequest` (including when none is pending) is a
complete no-op: the whole agent state — rendezvous, phase, pending request,
conversation log — is unchanged. -/
theorem mismatched_resolution_noop (s : AgentState) (requestId : String)
    (directive : Option String)
    (h : s.pendingApproval.map ApprovalRequest.id ≠ some requestId) :
    handleApproval s requestId = s ∧ handleRejection s requestId directive = s := by
  constructor
  · unfold handleApproval
    rw [if_neg (fun hc => h hc.1)]
  · unfold handleRejection
    rw [if_neg (fun hc => h hc.1)]

/-- Witness for `mismatched_resolution_noop`: a stale request id leaves the
pending approval state untouched. -/
theorem mismatched_resolution_noop_witness :
    handleApproval c3State "stale-id" = c3State ∧
      handleRejection c3State "stale-id" (some "push for more") = c3State :=
  mismatched_resolution_noop c3State "stale-id" (some "push for more") (by decide)

end NegotiAItor

